import Mathlib

/-!
# Verification of the pebkac-chrome browser-automation platform

Shallow embedding, in Lean 4, of the parts of the repository that the
specification claims C1–C10 concern:

* `app/utils/cache_utils.py` — `CacheKeyGenerator` (URL normalization and
  cache-key generation), including an executable SHA-256;
* `app/api/routes/browser.py` — tab management routes (`close_tab`,
  `list_tabs`, `open_background_tab`);
* `app/services/safe_code_agent.py` — the final-answer restructuring pass;
* `app/services/cache_service.py` + `app/utils/duckdb_client.py` +
  `duckdb-service/duckdb_service.py` — the tiered L1/L2 cache;
* `app/utils/memory_manager.py` + `app/utils/cache.py` — the bounded LRU
  and its periodic sweep;
* `app/services/agent_manager.py` — the last-result reconnection slot.

Python strings are modelled as `List Char`; the sources only manipulate
ASCII text within the claims' scope, so byte-level operations (UTF-8
encoding, percent escapes) are modelled at the ASCII code-point level.
All definitions are structurally recursive so that concrete instances
evaluate inside the kernel.
-/

namespace Pebkac

abbrev Chars := List Char

/-- Python `str.lower()` restricted to ASCII, applied per character. -/
def lowerChars (s : Chars) : Chars := s.map Char.toLower

/-- Python whitespace test used by `str.strip()` / `str.split()`
(space, tab, newline, carriage return, vertical tab, form feed). -/
def isPySpace (c : Char) : Bool :=
  c == ' ' || c == '\t' || c == '\n' || c == '\r' || c == '\x0b' || c == '\x0c'

/-- Python `str.strip()`: drop leading and trailing whitespace. -/
def stripChars (s : Chars) : Chars :=
  (s.dropWhile isPySpace).reverse.dropWhile isPySpace |>.reverse

/-- Prefix test, matching on the pattern first so that an empty pattern
reduces against any remaining input. -/
def isPrefixChars : Chars → Chars → Bool
  | [], _ => true
  | _ :: _, [] => false
  | p :: ps, x :: xs => p == x && isPrefixChars ps xs

/-- Does `pat` occur at the start of `s`? (Python `s.startswith(pat)`) -/
def startsWithChars (s pat : Chars) : Bool :=
  isPrefixChars pat s

/-- Python `pat in s`: substring occurrence test. -/
def containsSub (s pat : Chars) : Bool :=
  match s with
  | [] => pat.isEmpty
  | _ :: rest => isPrefixChars pat s || containsSub rest pat

/-- Fuelled worker for `replaceAll`; the fuel dominates the length of the
remaining input, so it never runs out when started at `s.length`. -/
def replaceAllAux (pat rep : Chars) : Nat → Chars → Chars
  | 0, s => s
  | _ + 1, [] => []
  | fuel + 1, c :: rest =>
    if pat ≠ [] && isPrefixChars pat (c :: rest) then
      rep ++ replaceAllAux pat rep fuel ((c :: rest).drop pat.length)
    else
      c :: replaceAllAux pat rep fuel rest

/-- Python `s.replace(pat, rep)` for a nonempty `pat`: replace every
non-overlapping occurrence, scanning left to right. -/
def replaceAll (s pat rep : Chars) : Chars :=
  replaceAllAux pat rep s.length s

/-- Split `s` at the first occurrence of `c`: `(before, some after)` when
`c` occurs, `(s, none)` otherwise. -/
def splitFirst (c : Char) (s : Chars) : Chars × Option Chars :=
  match s with
  | [] => ([], none)
  | x :: rest =>
    if x = c then ([], some rest)
    else
      let p := splitFirst c rest
      (x :: p.1, p.2)

/-- Python `s.split(c)` for a one-character separator: all fields, in
order; an empty string yields one empty field. -/
def splitAllChar (c : Char) (s : Chars) : List Chars :=
  match s with
  | [] => [[]]
  | x :: rest =>
    if x = c then [] :: splitAllChar c rest
    else
      match splitAllChar c rest with
      | [] => [[x]]
      | f :: fs => (x :: f) :: fs

/-- Python `c.join(parts)` for a one-character separator. -/
def joinChar (c : Char) (parts : List Chars) : Chars :=
  match parts with
  | [] => []
  | [p] => p
  | p :: rest => p ++ c :: joinChar c rest

/-- Python `str.split()` with no separator: fields of non-whitespace
characters, with runs of whitespace collapsed and ends ignored. -/
def splitWhitespace (s : Chars) : List Chars :=
  match s with
  | [] => []
  | c :: rest =>
    if isPySpace c then splitWhitespace rest
    else
      match splitWhitespace rest with
      | [] => [[c]]
      | f :: fs =>
        match rest with
        | [] => [[c]]
        | r :: _ => if isPySpace r then [c] :: f :: fs else (c :: f) :: fs

/-! ## SHA-256

Executable model of `hashlib.sha256(key_string.encode()).hexdigest()`
(`cache_utils.py` line 189).  Messages are lists of byte values; the
`.encode()` step for the ASCII strings in scope maps each character to
its code point. -/

/-- Truncate to a 32-bit word. -/
def w32 (x : Nat) : Nat := x % 4294967296

/-- 32-bit right rotation. -/
def rotr32 (n x : Nat) : Nat := w32 ((x >>> n) ||| (x <<< (32 - n)))

/-- The SHA-256 round constants. -/
def sha256K : List Nat :=
  [1116352408, 1899447441, 3049323471, 3921009573, 961987163, 1508970993,
   2453635748, 2870763221, 3624381080, 310598401, 607225278, 1426881987,
   1925078388, 2162078206, 2614888103, 3248222580, 3835390401, 4022224774,
   264347078, 604807628, 770255983, 1249150122, 1555081692, 1996064986,
   2554220882, 2821834349, 2952996808, 3210313671, 3336571891, 3584528711,
   113926993, 338241895, 666307205, 773529912, 1294757372, 1396182291,
   1695183700, 1986661051, 2177026350, 2456956037, 2730485921, 2820302411,
   3259730800, 3345764771, 3516065817, 3600352804, 4094571909, 275423344,
   430227734, 506948616, 659060556, 883997877, 958139571, 1322822218,
   1537002063, 1747873779, 1955562222, 2024104815, 2227730452, 2361852424,
   2428436474, 2756734187, 3204031479, 3329325298]

/-- The SHA-256 initial hash state. -/
def sha256H0 : List Nat :=
  [1779033703, 3144134277, 1013904242, 2773480762, 1359893119, 2600822924,
   528734635, 1541459225]

/-- Big-endian byte decomposition of `x` into `n` bytes. -/
def beBytes (n x : Nat) : List Nat :=
  (List.range n).map (fun i => (x >>> (8 * (n - 1 - i))) % 256)

/-- SHA-256 message padding: append `0x80`, zero bytes up to 56 mod 64,
then the bit length as 8 big-endian bytes. -/
def sha256pad (msg : List Nat) : List Nat :=
  let len := msg.length
  let padZeros := (119 - len % 64) % 64
  msg ++ 0x80 :: List.replicate padZeros 0 ++ beBytes 8 (8 * len)

/-- Group bytes into big-endian 32-bit words. -/
def toWordsBE : List Nat → List Nat
  | a :: b :: c :: d :: rest => (((a * 256 + b) * 256 + c) * 256 + d) :: toWordsBE rest
  | _ => []

/-- Fuelled splitting of a word list into 16-word blocks. -/
def blocks16Aux : Nat → List Nat → List (List Nat)
  | 0, _ => []
  | _ + 1, [] => []
  | fuel + 1, l => l.take 16 :: blocks16Aux fuel (l.drop 16)

/-- Split a word list into 16-word blocks. -/
def blocks16 (l : List Nat) : List (List Nat) := blocks16Aux l.length l

/-- One step of message-schedule extension: append `w[i]` computed from
`w[i-16]`, `w[i-15]`, `w[i-7]`, `w[i-2]`. -/
def schedStep (w : List Nat) : List Nat :=
  let i := w.length
  let x15 := w.getD (i - 15) 0
  let x2 := w.getD (i - 2) 0
  let s0 := w32 ((rotr32 7 x15) ^^^ (rotr32 18 x15) ^^^ (x15 >>> 3))
  let s1 := w32 ((rotr32 17 x2) ^^^ (rotr32 19 x2) ^^^ (x2 >>> 10))
  w ++ [w32 (w.getD (i - 16) 0 + s0 + w.getD (i - 7) 0 + s1)]

/-- Extend a 16-word block to the 64-word message schedule. -/
def sha256schedule (ws : List Nat) : List Nat := Nat.repeat schedStep 48 ws

/-- One SHA-256 round on the 8-word working state. -/
def sha256round (st : List Nat) (kw : Nat × Nat) : List Nat :=
  match st with
  | [a, b, c, d, e, f, g, h] =>
    let s1 := w32 ((rotr32 6 e) ^^^ (rotr32 11 e) ^^^ (rotr32 25 e))
    let ch := w32 ((e &&& f) ^^^ ((4294967295 - e) &&& g))
    let t1 := w32 (h + s1 + ch + kw.1 + kw.2)
    let s0 := w32 ((rotr32 2 a) ^^^ (rotr32 13 a) ^^^ (rotr32 22 a))
    let mj := w32 ((a &&& b) ^^^ (a &&& c) ^^^ (b &&& c))
    let t2 := w32 (s0 + mj)
    [w32 (t1 + t2), a, b, c, w32 (d + t1), e, f, g]
  | other => other

/-- Compress one 16-word block into the hash state. -/
def sha256compress (h : List Nat) (block : List Nat) : List Nat :=
  let w := sha256schedule block
  let st := (sha256K.zip w).foldl sha256round h
  (h.zip st).map (fun p => w32 (p.1 + p.2))

/-- SHA-256 of a byte list, as the 8-word digest. -/
def sha256words (msg : List Nat) : List Nat :=
  (blocks16 (toWordsBE (sha256pad msg))).foldl sha256compress sha256H0

/-- One lowercase hex digit. -/
def hexDigit (n : Nat) : Char :=
  if n < 10 then Char.ofNat (48 + n) else Char.ofNat (87 + n)

/-- Lowercase hex rendering of a 32-bit word (8 digits). -/
def hex32 (x : Nat) : Chars :=
  (List.range 8).map (fun i => hexDigit ((x >>> (4 * (7 - i))) % 16))

/-- `hashlib.sha256(bytes).hexdigest()`: 64 lowercase hex characters. -/
def sha256hex (msg : List Nat) : Chars :=
  (sha256words msg).flatMap hex32

/-- `str.encode()` for the ASCII strings in the claims' scope: each
character is one byte, its code point. -/
def encodeAscii (s : Chars) : List Nat := s.map Char.toNat

/-! ## Percent escapes (`urllib.parse.quote` / `unquote` and friends)

Modelled at the ASCII byte level: the inputs within the claims' scope
are ASCII, where one character is one byte. -/

/-- ASCII hex-digit test. -/
def isHexChar (c : Char) : Bool :=
  c.isDigit || ('a' ≤ c && c ≤ 'f') || ('A' ≤ c && c ≤ 'F')

/-- Value of an ASCII hex digit. -/
def hexVal (c : Char) : Nat :=
  if c.isDigit then c.toNat - 48
  else if 'a' ≤ c then c.toNat - 87
  else c.toNat - 55

/-- `urllib.parse.unquote`: decode `%XX` escapes, leaving invalid escape
sequences untouched. -/
def unquoteChars : Chars → Chars
  | [] => []
  | c :: rest =>
    if c = '%' then
      match rest with
      | h1 :: h2 :: rest2 =>
        if isHexChar h1 && isHexChar h2 then
          Char.ofNat (16 * hexVal h1 + hexVal h2) :: unquoteChars rest2
        else '%' :: unquoteChars (h1 :: h2 :: rest2)
      | [h1] => ['%', h1]
      | [] => ['%']
    else c :: unquoteChars rest

/-- Uppercase hex digit, as `quote` emits. -/
def hexDigitU (n : Nat) : Char :=
  if n < 10 then Char.ofNat (48 + n) else Char.ofNat (55 + n)

/-- The characters `quote` never escapes (`ALWAYS_SAFE` minus letters and
digits): `_ . - ~`. -/
def alwaysSafe (c : Char) : Bool :=
  c.isAlphanum || c == '_' || c == '.' || c == '-' || c == '~'

/-- `urllib.parse.quote(s, safe)` on one character. -/
def quoteChar (safe : Chars) (c : Char) : Chars :=
  if alwaysSafe c || safe.contains c then [c]
  else ['%', hexDigitU (c.toNat / 16), hexDigitU (c.toNat % 16)]

/-- `urllib.parse.quote(s, safe)`. -/
def quoteChars (safe : Chars) (s : Chars) : Chars :=
  s.flatMap (quoteChar safe)

/-- `urllib.parse.unquote_plus`: `+` becomes space, then `%XX` decoding. -/
def unquotePlus (s : Chars) : Chars :=
  unquoteChars (s.map (fun c => if c == '+' then ' ' else c))

/-- `urllib.parse.quote_plus` with empty `safe`: space becomes `+`,
everything else outside the always-safe set is `%XX`-escaped. -/
def quotePlus (s : Chars) : Chars :=
  s.flatMap (fun c => if c == ' ' then ['+'] else quoteChar [] c)

/-! ## `urllib.parse.urlparse` / `urlunparse`

Restricted model of CPython's parser, covering the URL forms that
`normalize_url` actually feeds it: strings starting with `http://`,
`https://` or `//` (the function prepends `https://` otherwise), plus a
scheme-less fallback for totality.  The netloc runs to the first of
`/ ? #`; the fragment is split at the first `#`, the query at the first
`?` of what precedes it. -/

structure PyUrl where
  scheme : Chars
  netloc : Chars
  path : Chars
  query : Chars
  fragment : Chars
deriving Repr, DecidableEq

/-- Split `path?query#fragment` into its three parts (`#` first, then
`?`, as CPython does). -/
def splitPathQueryFrag (s : Chars) : Chars × Chars × Chars :=
  let bh := splitFirst '#' s
  let pq := splitFirst '?' bh.1
  (pq.1, pq.2.getD [], bh.2.getD [])

/-- Netloc boundary: the netloc runs up to the first `/`, `?` or `#`. -/
def isNetlocEnd (c : Char) : Bool := c == '/' || c == '?' || c == '#'

/-- Restricted `urlparse` (see section comment). -/
def urlparseModel (url : Chars) : PyUrl :=
  let core := fun (scheme rest : Chars) =>
    let netloc := rest.takeWhile (fun c => !isNetlocEnd c)
    let tri := splitPathQueryFrag (rest.drop netloc.length)
    PyUrl.mk scheme netloc tri.1 tri.2.1 tri.2.2
  if startsWithChars url "https://".data then core "https".data (url.drop 8)
  else if startsWithChars url "http://".data then core "http".data (url.drop 7)
  else if startsWithChars url "//".data then core [] (url.drop 2)
  else
    let tri := splitPathQueryFrag url
    PyUrl.mk [] [] tri.1 tri.2.1 tri.2.2

/-! ## `CacheKeyGenerator` (`app/utils/cache_utils.py`) -/

/-- `CacheKeyGenerator.EXCLUDED_PARAMS`: query parameters always excluded
from cache keys. -/
def EXCLUDED_PARAMS : List Chars :=
  ["utm_source", "utm_medium", "utm_campaign", "utm_term", "utm_content",
   "fbclid", "gclid", "dclid", "msclkid",
   "ref", "referrer", "source",
   "_ga", "_gid", "_gac",
   "timestamp", "ts", "t",
   "session", "sessionid", "sid"].map String.data

/-- `CacheKeyGenerator.PARAM_SENSITIVE_DOMAINS`: domains whose query
parameters are significant. -/
def PARAM_SENSITIVE_DOMAINS : List Chars :=
  ["youtube.com", "youtu.be", "amazon.com", "github.com"].map String.data

/-- `urllib.parse.parse_qsl` with `keep_blank_values=True` and the
default `&` separator: split fields, drop empty fields, split each at
its first `=` (missing value becomes empty), `unquote_plus` both sides. -/
def parseQsl (q : Chars) : List (Chars × Chars) :=
  (splitAllChar '&' q).filterMap (fun field =>
    if field = [] then none
    else
      match splitFirst '=' field with
      | (k, some v) => some (unquotePlus k, unquotePlus v)
      | (k, none) => some (unquotePlus k, []))

/-- First occurrence of each key, in order (`dict` insertion order). -/
def dedupKeysAux (seen : List Chars) : List Chars → List Chars
  | [] => []
  | k :: rest =>
    if seen.contains k then dedupKeysAux seen rest
    else k :: dedupKeysAux (k :: seen) rest

/-- `parse_qs`-style grouping: keys in first-occurrence order, each with
its values in order. -/
def groupByKey (q : List (Chars × Chars)) : List (Chars × List Chars) :=
  (dedupKeysAux [] (q.map (·.1))).map
    (fun k => (k, (q.filter (fun p => p.1 == k)).map (·.2)))

/-- Lexicographic comparison by character code, as Python compares
strings. -/
def lexLe : Chars → Chars → Bool
  | [], _ => true
  | _ :: _, [] => false
  | a :: as, b :: bs =>
    if a.toNat < b.toNat then true
    else if b.toNat < a.toNat then false
    else lexLe as bs

/-- Stable insertion of `x` into a run sorted by `le`. -/
def insertBy (le : α → α → Bool) (x : α) : List α → List α
  | [] => [x]
  | y :: ys => if le x y then x :: y :: ys else y :: insertBy le x ys

/-- Stable insertion sort by `le`, modelling Python `sorted`. -/
def insertionSortBy (le : α → α → Bool) : List α → List α
  | [] => []
  | x :: xs => insertBy le x (insertionSortBy le xs)

/-- `urllib.parse.urlencode(params, doseq=True)`: one `k=v` field per
value, `quote_plus`-escaped, joined by `&`. -/
def urlencodeDoseq (params : List (Chars × List Chars)) : Chars :=
  joinChar '&' (params.flatMap
    (fun kv => kv.2.map (fun v => quotePlus kv.1 ++ '=' :: quotePlus v)))

/-- Python truthiness of an optional list-of-strings argument
(`None` and `[]` are falsy). -/
def truthyListOpt (o : Option (List Chars)) : Bool :=
  match o with
  | none => false
  | some l => !l.isEmpty

/-- `CacheKeyGenerator._normalize_query_params`: drop tracking parameters
(unless the domain is parameter-sensitive or the key is preserved), sort
values, sort keys, re-encode. -/
def normalizeQueryParams (query domain : Chars)
    (preserve : Option (List Chars)) : Chars :=
  let is_sensitive := PARAM_SENSITIVE_DOMAINS.any (fun d => containsSub domain d)
  let params := groupByKey (parseQsl query)
  let filtered := params.filter (fun kv =>
    if !is_sensitive && EXCLUDED_PARAMS.contains (lowerChars kv.1) then
      truthyListOpt preserve && (preserve.getD []).contains kv.1
    else true)
  let filtered := filtered.map (fun kv => (kv.1, insertionSortBy lexLe kv.2))
  let sorted := insertionSortBy (fun a b => lexLe a.1 b.1) filtered
  if sorted ≠ [] then urlencodeDoseq sorted else []

/-- `re.sub(r'/+', '/', path)`: collapse runs of slashes. -/
def collapseSlashes : Chars → Chars
  | [] => []
  | [c] => [c]
  | a :: b :: rest =>
    if a == '/' && b == '/' then collapseSlashes (b :: rest)
    else a :: collapseSlashes (b :: rest)

/-- The `safe` set `normalize_url` passes to `quote`. -/
def pathSafe : Chars := "/:@!$&'()*+,;=".data

/-- `CacheKeyGenerator.normalize_url`: scheme/host normalization, default
port removal, slash collapsing, percent-escape canonicalization, trailing
slash and fragment removal, query-parameter normalization. -/
def normalize_url (url : Chars) (preserve : Option (List Chars) := none) : Chars :=
  if url = [] then []
  else
    let url :=
      if !(startsWithChars url "http://".data || startsWithChars url "https://".data
            || startsWithChars url "//".data) then
        "https://".data ++ url
      else url
    let parsed := urlparseModel url
    let scheme := if parsed.scheme = [] then "https".data else parsed.scheme
    let netloc := lowerChars parsed.netloc
    if netloc = [] then stripChars (lowerChars url)
    else
      let netloc :=
        if containsSub netloc ":80".data && scheme == "http".data then
          replaceAll netloc ":80".data []
        else if containsSub netloc ":443".data && scheme == "https".data then
          replaceAll netloc ":443".data []
        else netloc
      let path := if parsed.path = [] then "/".data else parsed.path
      let path := collapseSlashes path
      let path := quoteChars pathSafe (unquoteChars path)
      let path :=
        if path ≠ "/".data && path.getLast? == some '/' then path.dropLast
        else path
      let nquery :=
        if parsed.query ≠ [] then normalizeQueryParams parsed.query netloc preserve
        else []
      scheme ++ "://".data ++ netloc ++ path ++
        (if nquery ≠ [] then '?' :: nquery else [])

/-- Attempt to match the body of `re.sub(r'\[([^=]+)=["\']([^"\']+)["\']\]',
r'[\1=\2]', s)` right after an opening `[`: a nonempty `=`-free key, `=`,
a quote, a nonempty quote-free value, a quote, `]`.  Returns the unquoted
replacement and the remaining input. -/
def matchAttrQuote (s : Chars) : Option (Chars × Chars) :=
  match splitFirst '=' s with
  | (_, none) => none
  | (key, some r) =>
    if key = [] then none
    else
      match r with
      | q :: rest2 =>
        if q == '"' || q == '\'' then
          let val := rest2.takeWhile (fun c => c ≠ '"' ∧ c ≠ '\'')
          match rest2.drop val.length with
          | qc :: ']' :: rest4 =>
            if val ≠ [] && (qc == '"' || qc == '\'') then
              some ('[' :: key ++ '=' :: val ++ [']'], rest4)
            else none
          | _ => none
        else none
      | [] => none

/-- Fuelled scan applying `matchAttrQuote` at each `[`. -/
def removeAttrQuotesAux : Nat → Chars → Chars
  | 0, s => s
  | _ + 1, [] => []
  | fuel + 1, c :: rest =>
    if c == '[' then
      match matchAttrQuote rest with
      | some (rep, rest4) => rep ++ removeAttrQuotesAux fuel rest4
      | none => c :: removeAttrQuotesAux fuel rest
    else c :: removeAttrQuotesAux fuel rest

/-- Remove optional quotes around attribute values, modelling the regex
substitution in `_normalize_selector` for attribute selectors of the form
`[key="value"]`. -/
def removeAttrQuotes (s : Chars) : Chars := removeAttrQuotesAux s.length s

/-- `CacheKeyGenerator._normalize_selector`: collapse whitespace,
lowercase, unquote attribute values, sort comma-separated parts. -/
def normalizeSelector (s : Chars) : Chars :=
  if s = [] then []
  else
    let s := joinChar ' ' (splitWhitespace s)
    let s := lowerChars s
    let s := removeAttrQuotes s
    if containsSub s ",".data then
      joinChar ',' (insertionSortBy lexLe ((splitAllChar ',' s).map stripChars))
    else s

/-- `CacheKeyGenerator.generate_cache_key`: normalized URL, optional
normalized selector, optional lowercased context, joined with `|`, hashed
with SHA-256, prefixed by namespace and sanitized domain. -/
def generate_cache_key (url : Chars) (selector : Option Chars := none)
    (context : Option Chars := none) (include_params : Bool := true)
    (namespc : Chars := "cache".data) : Chars :=
  let normalized := normalize_url url
  let normalized :=
    if include_params then normalized
    else
      let p := urlparseModel normalized
      p.scheme ++ "://".data ++ p.netloc ++ p.path
  let selPart : List Chars :=
    match selector with
    | some s => if s ≠ [] then [normalizeSelector s] else []
    | none => []
  let ctxPart : List Chars :=
    match context with
    | some c =>
      let cs := stripChars (lowerChars c)
      if c ≠ [] && cs ≠ [] then [cs] else []
    | none => []
  let key_parts := normalized :: (selPart ++ ctxPart)
  let key_string := joinChar '|' key_parts
  let key_hash := sha256hex (encodeAscii key_string)
  let domain :=
    let d := (urlparseModel normalized).netloc
    let d := if d = [] then "unknown".data else d
    let d := replaceAll (replaceAll d ".".data "_".data) ":".data "_".data
    d.take 30
  namespc ++ ':' :: domain ++ ':' :: key_hash.take 16

/-! ## Tab management (`app/api/routes/browser.py`)

The browser state, for the tab routes' purposes, is the ordered list of
open tabs (position = index; position 0 is the main tab) plus the index
of the focused tab.  Navigation always targets tab 0
(`BrowserManager.get_tab` returns `browser.tabs[0]`). -/

/-- One entry of the `/tabs/list` response. -/
structure TabInfo where
  index : Nat
  url : String
  is_main_tab : Bool
  closeable : Bool
deriving Repr, DecidableEq

/-- Browser state as seen by the tab routes. -/
structure BrowserState where
  tabs : List String
  focused : Nat
deriving Repr, DecidableEq

/-- Startup state: the single persistent tab (`get_tab` creates the
initial tab on `about:blank` when none exists). -/
def initialBrowserState : BrowserState := ⟨["about:blank"], 0⟩

/-- Outcome of a tab route. -/
inductive TabResult where
  | ok (message : String) (remaining_tabs : Nat)
  | httpError (status : Nat) (detail : String)
deriving Repr, DecidableEq

/-- The `/tabs/close` route (`close_tab`): reject index 0, reject
out-of-range indices, otherwise close the tab and re-activate the main
tab. -/
def close_tab (st : BrowserState) (tab_index : Int) : TabResult × BrowserState :=
  if tab_index = 0 then
    (.httpError 400 "Cannot close main tab (tab 0). Only background tabs can be closed.", st)
  else if tab_index < 0 || tab_index ≥ st.tabs.length then
    (.httpError 400 "Invalid tab index", st)
  else
    (.ok ("Closed tab " ++ toString tab_index) (st.tabs.length - 1),
     ⟨st.tabs.eraseIdx tab_index.toNat, 0⟩)

/-- The `/tabs/list` route (`list_tabs`): total count plus one record per
tab; index 0 is the main tab and the only non-closeable one. -/
def list_tabs (st : BrowserState) : Nat × List TabInfo :=
  (st.tabs.length,
   st.tabs.enum.map (fun p => ⟨p.1, p.2, p.1 == 0, p.1 != 0⟩))

/-- Modelled from the spec: `BrowserManager.create_background_tab` is
called by the `/tabs/open_background` route but is not defined under
`src/`.  Per the spec ("Tabs 1..N are created on explicit request; tab-0
remains focused after a background tab opens. A ceiling (3) limits how
many background tabs exist simultaneously"), it appends a new background
tab, keeps tab 0 focused, refuses when 3 background tabs already exist,
and returns the new tab's index together with the total tab count. -/
def create_background_tab (st : BrowserState) (url : String) :
    Except String (Nat × Nat) × BrowserState :=
  if st.tabs.length - 1 ≥ 3 then
    (.error "Background tab limit reached (3)", st)
  else
    let tabs' := st.tabs ++ [url]
    (.ok (tabs'.length - 1, tabs'.length), ⟨tabs', st.focused⟩)

/-- The tab operations reachable states are built from. -/
inductive TabOp where
  | openBackground (url : String)
  | closeTab (idx : Int)
  | navigate (url : String)

/-- State transition of one tab operation (failed operations leave the
state unchanged, as the routes do). -/
def applyTabOp (st : BrowserState) (op : TabOp) : BrowserState :=
  match op with
  | .openBackground url => (create_background_tab st url).2
  | .closeTab idx => (close_tab st idx).2
  | .navigate url => ⟨st.tabs.set 0 url, st.focused⟩

/-- A browser state reachable by some sequence of tab operations from
startup. -/
def ReachableTabState (st : BrowserState) : Prop :=
  ∃ ops : List TabOp, st = ops.foldl applyTabOp initialBrowserState

/-! ## Code-Repair Pass (`app/services/safe_code_agent.py`)

The restructuring step operates on `code.split('\n')` and rejoins with
`'\n'`; it is embedded here on the list of lines.  The needle
`final_answer` contains no newline, so its occurrence count in the
joined string is the sum of the per-line counts. -/

/-- Fuelled worker for `countSub`. -/
def countSubAux (pat : Chars) : Nat → Chars → Nat
  | 0, _ => 0
  | _ + 1, [] => 0
  | fuel + 1, c :: rest =>
    if pat ≠ [] && isPrefixChars pat (c :: rest) then
      1 + countSubAux pat fuel ((c :: rest).drop pat.length)
    else countSubAux pat fuel rest

/-- Python `s.count(pat)`: non-overlapping occurrences, left to right. -/
def countSub (s pat : Chars) : Nat := countSubAux pat s.length s

/-- A line holding a `final_answer` call that is not a comment
(`'final_answer' in line and not line.strip().startswith('#')`). -/
def isFinalAnswerLine (l : Chars) : Bool :=
  containsSub l "final_answer".data && !(startsWithChars (stripChars l) "#".data)

/-- `code.count('final_answer')` from `SafeCodeAgent.execute`, summed
over the lines of the block. -/
def codeCountFA (lines : List Chars) : Nat :=
  (lines.map (fun l => countSub l "final_answer".data)).sum

/-- `SafeCodeAgent._restructure_code`: when more than one non-comment
`final_answer` line exists, keep all other lines in order and append the
last `final_answer` line at the end (joining an empty remainder
contributes one empty line, as `''.join` + `'\n'` does). -/
def restructure_code (lines : List Chars) : List Chars :=
  let fa := lines.filter isFinalAnswerLine
  let others := lines.filter (fun l => !isFinalAnswerLine l)
  if fa.length > 1 then
    (if others.isEmpty then [[]] else others) ++ [fa.getLastD []]
  else lines

/-- The `final_answer` stage of `SafeCodeAgent.execute`: restructure
only when the block mentions `final_answer` more than once. -/
def executeRepairFA (lines : List Chars) : List Chars :=
  if codeCountFA lines > 1 then restructure_code lines else lines

/-! ## Tiered cache service (`app/services/cache_service.py`,
`app/utils/duckdb_client.py`, `duckdb-service/duckdb_service.py`)

The claims' inputs are plain strings, so `_sanitize_value` (which
unwraps `RemoteObject` wrappers and tuples) is the identity and is not
modelled separately.  A payload dict is modelled by the fields the
claims exercise; `encodedSize` stands for `len(pickle.dumps(data))`, and
`reprStr` for the `str(data)` fallback. -/

/-- An extraction payload as the cache service stores and returns it. -/
structure Payload where
  status : String := ""
  dataStr : String := ""
  textStr : String := ""
  title : String := ""
  metaUrl : String := ""
  wordCount : Nat := 0
  extraction_method : String := "unknown"
  cached : Bool := false
  cache_layer : String := ""
  reprStr : String := ""
  encodedSize : Nat := 0
deriving Repr, DecidableEq

/-- `data.get('data', '') or data.get('text', '') or str(data)` from
`DuckDBClient.store_cached_page`. -/
def contentOf (p : Payload) : String :=
  if p.dataStr ≠ "" then p.dataStr
  else if p.textStr ≠ "" then p.textStr
  else p.reprStr

/-- `ExtractorCacheService.should_bypass_cache`: search contexts, search
hosts, and real-time URL paths bypass the cache. -/
def should_bypass_cache (url selector context : Chars) : Bool :=
  let urlL := lowerChars url
  containsSub (lowerChars context) "search".data ||
  (["duckduckgo.com", "google.com", "bing.com", "search"].map String.data).any
    (fun engine => containsSub urlL engine) ||
  (["/api/", "/live/", "/current/", "/now/", "/realtime/"].map String.data).any
    (fun pt => containsSub urlL pt)

/-- `ExtractorCacheService.get_cache_ttl`: 0 for bypass and dynamic
selectors, 86400 for structural selectors, 1800 for selectors without
CSS syntax, 3600 otherwise. -/
def get_cache_ttl (url selector context : Chars) : Nat :=
  if should_bypass_cache url selector context then 0
  else if ([".price", ".stock", ".timestamp", ".live", ".current", ".now"].map
      String.data).any (fun dyn => containsSub (lowerChars selector) dyn) then 0
  else if (["nav", "header", "footer", "menu", "form", "input[", "button[",
      "[role"].map String.data).any
      (fun struct => containsSub (lowerChars selector) struct) then 86400
  else if !((([".", "#", "[", ":", ">"].map String.data).any
      (fun css => containsSub selector css))) then 1800
  else 3600

/-- A row of the DuckDB `cached_pages` table (`content_hash`,
`summary`, `key_points`, `entities` and `success_rate` are carried by
the service but no claim depends on them, so they are not modelled). -/
structure L2Row where
  url : String
  title : String
  content : String
  word_count : Nat
  selector_used : String
  extraction_method : String
  extracted_at : Nat
  ttl_expires : Nat
deriving Repr, DecidableEq

/-- The DuckDB page store, keyed by cache key (`PRIMARY KEY`). -/
abbrev L2Store := List (String × L2Row)

/-- `INSERT OR REPLACE` keyed on the cache key. -/
def l2upsert (st : L2Store) (key : String) (row : L2Row) : L2Store :=
  if st.any (fun kv => kv.1 == key) then
    st.map (fun kv => if kv.1 == key then (key, row) else kv)
  else st ++ [(key, row)]

/-- `GET /cache/page/{key}` of the DuckDB service: the row, provided
`ttl_expires > now`. -/
def l2get_page (st : L2Store) (now : Nat) (key : String) : Option L2Row :=
  match st.find? (fun kv => kv.1 == key) with
  | some kv => if now < kv.2.ttl_expires then some kv.2 else none
  | none => none

/-- `DuckDBClient.store_cached_page` + `POST /cache/page`: extract the
content, upsert the row with `ttl_expires = now + ttl`. -/
def store_cached_page (st : L2Store) (now : Nat) (key url : String)
    (data : Payload) (ttl : Nat) (metaTitle metaSelector metaMethod : String) :
    L2Store :=
  let content := contentOf data
  l2upsert st key
    { url := url, title := metaTitle, content := content,
      word_count := (splitWhitespace content.data).length,
      selector_used := metaSelector, extraction_method := metaMethod,
      extracted_at := now, ttl_expires := now + ttl }

/-- What `DuckDBClient.get_cached_page` hands back on an L2 hit: the
wrapped payload plus the fixed default TTL 3600 used for promotion. -/
structure PromoteRec where
  data : Payload
  ttl : Nat
deriving Repr, DecidableEq

/-- `DuckDBClient.get_cached_page`: wrap the row as a success payload
tagged `L2_duckdb`, with `'ttl': 3600` ("Default TTL when promoting to
L1"). -/
def get_cached_page (st : L2Store) (now : Nat) (key : String) : Option PromoteRec :=
  (l2get_page st now key).map (fun row =>
    { data := { status := "success", dataStr := row.content,
                metaUrl := row.url, title := row.title,
                wordCount := row.word_count, cached := true,
                cache_layer := "L2_duckdb" },
      ttl := 3600 })

/-- The L1 layer as the cache service sees it: a key → (value, ttl) map
(`CacheManager.get`/`set`).  The LRU/byte-budget mechanics behind it are
modelled separately for the sweep claim. -/
abbrev L1Map := List (String × Payload × Nat)

/-- `CacheManager.get` at the map level. -/
def l1get (l1 : L1Map) (key : String) : Option Payload :=
  (l1.find? (fun kv => kv.1 == key)).map (fun kv => kv.2.1)

/-- `CacheManager.set` at the map level: replace in place or append. -/
def l1set (l1 : L1Map) (key : String) (v : Payload) (ttl : Nat) : L1Map :=
  if l1.any (fun kv => kv.1 == key) then
    l1.map (fun kv => if kv.1 == key then (key, v, ttl) else kv)
  else l1 ++ [(key, v, ttl)]

/-- Both layers of the tiered cache. -/
structure SvcState where
  l1 : L1Map
  l2 : L2Store
deriving Repr, DecidableEq

/-- `ExtractorCacheService._make_url_key`: key in the `extract`
namespace. -/
def make_url_key (url : String) (selector : Option String) (context : String) :
    String :=
  ⟨generate_cache_key url.data (selector.map String.data) (some context.data)
    true "extract".data⟩

/-- `ExtractorCacheService.get_cached_extraction`: bypass check, L1
lookup, then L2 lookup with promotion to L1 using the client's returned
TTL. -/
def get_cached_extraction (st : SvcState) (now : Nat) (url : String)
    (selector : Option String) (context : String) :
    Option Payload × SvcState :=
  if should_bypass_cache url.data (selector.getD "").data context.data then
    (none, st)
  else
    let key := make_url_key url selector context
    match l1get st.l1 key with
    | some v => (some v, st)
    | none =>
      match get_cached_page st.l2 now key with
      | some pr => (some pr.data, ⟨l1set st.l1 key pr.data pr.ttl, st.l2⟩)
      | none => (none, st)

/-- `ExtractorCacheService.cache_extraction`: skip on zero policy TTL,
always write L1, and persist to L2 when the selector is `universal`, the
policy TTL is at least 3600 s, or the encoded payload exceeds 10000
bytes. -/
def cache_extraction (st : SvcState) (now : Nat) (url : String)
    (selector : Option String) (data : Payload) (context : String) : SvcState :=
  let smart_ttl := get_cache_ttl url.data (selector.getD "").data context.data
  if smart_ttl = 0 then st
  else
    let key := make_url_key url selector context
    let st1 : SvcState := ⟨l1set st.l1 key data smart_ttl, st.l2⟩
    let data_size := data.encodedSize
    let should_persist :=
      (selector.getD "") == "universal" || smart_ttl ≥ 3600 || data_size > 10000
    if should_persist then
      ⟨st1.l1, store_cached_page st1.l2 now key url data smart_ttl
        data.title (selector.getD "") data.extraction_method⟩
    else st1

/-! ## Bounded LRU (`app/utils/memory_manager.py`) and its sweep
(`app/utils/cache.py`)

Entries are kept in recency order (front = least recently used).  A
stored value is modelled by its content together with its
`sys.getsizeof` estimate. -/

/-- A value in the process-local LRU with its size estimate. -/
structure LRUVal where
  content : String := ""
  size : Nat := 0
deriving Repr, DecidableEq

/-- State of `BoundedLRUCache`: entries are `(key, value, timestamp)`,
`current_size_bytes` tracks the byte estimate. -/
structure LRUState where
  entries : List (String × LRUVal × Nat)
  current_size_bytes : Nat
  max_items : Nat
  max_memory_bytes : Nat
deriving Repr, DecidableEq

/-- A fresh `BoundedLRUCache(max_items, max_memory_bytes)`. -/
def lruInit (max_items max_memory_bytes : Nat) : LRUState :=
  ⟨[], 0, max_items, max_memory_bytes⟩

/-- The eviction loop of `BoundedLRUCache.set`: pop least-recently-used
entries while either cap is exceeded. -/
def lruEvictAux (size maxI maxM : Nat) :
    Nat → List (String × LRUVal × Nat) → Nat → List (String × LRUVal × Nat) × Nat
  | 0, es, cur => (es, cur)
  | fuel + 1, es, cur =>
    if es.length ≥ maxI || cur + size > maxM then
      match es with
      | [] => (es, cur)
      | e :: rest => lruEvictAux size maxI maxM fuel rest (cur - e.2.1.size)
    else (es, cur)

/-- `BoundedLRUCache.set(key, value, ttl)`.  The `ttl` argument is
accepted but never stored or consulted by the source: the entry is
written as `(value, time.time())`. -/
def lruSet (st : LRUState) (key : String) (v : LRUVal) (ttl : Nat) (now : Nat) :
    LRUState :=
  let (es, cur) := lruEvictAux v.size st.max_items st.max_memory_bytes
    st.entries.length st.entries st.current_size_bytes
  let es' :=
    if es.any (fun e => e.1 == key) then
      es.map (fun e => if e.1 == key then (key, v, now) else e)
    else es ++ [(key, v, now)]
  ⟨es', cur + v.size, st.max_items, st.max_memory_bytes⟩

/-- `BoundedLRUCache.get`: hit moves the entry to the most-recent end. -/
def lruGet (st : LRUState) (key : String) : Option LRUVal × LRUState :=
  match st.entries.find? (fun e => e.1 == key) with
  | none => (none, st)
  | some e =>
    (some e.2.1,
     ⟨st.entries.filter (fun x => x.1 != key) ++ [e], st.current_size_bytes,
      st.max_items, st.max_memory_bytes⟩)

/-- `BoundedLRUCache.clear_expired`, as invoked by
`CacheManager._periodic_cleanup` every 300 s: remove every entry with
`now - timestamp > 3600`, a fixed age independent of the TTL the entry
was stored with. -/
def lruClearExpired (st : LRUState) (now : Nat) : LRUState :=
  let keep := st.entries.filter (fun e => !(now - e.2.2 > 3600))
  let removed := st.entries.filter (fun e => now - e.2.2 > 3600)
  ⟨keep, st.current_size_bytes - (removed.map (fun e => e.2.1.size)).sum,
   st.max_items, st.max_memory_bytes⟩

/-! ## Selector-performance memory (`duckdb-service/duckdb_service.py`)

Rows of `cached_elements` for one `(domain, element_type)` pair, in
insertion order.  Find times are floats in the source; the claims only
exercise integral values, so they are modelled as naturals (with `None`
as `Option.none`). -/

/-- One `cached_elements` row. -/
structure SelRecord where
  selector : String
  success_count : Nat
  fail_count : Nat
  last_used : Nat
  avg_find_time_ms : Nat
deriving Repr, DecidableEq

/-- `POST /cache/element` (`cache_element`): increment the matching
counter of the existing row (updating the moving average only on a
success that carries a truthy find time), or insert a fresh row. -/
def cache_element (recs : List SelRecord) (now : Nat) (selector : String)
    (success : Bool) (find_time_ms : Option Nat) : List SelRecord :=
  if recs.any (fun r => r.selector == selector) then
    recs.map (fun r =>
      if r.selector == selector then
        let new_success := if success then r.success_count + 1 else r.success_count
        let new_fail := if success then r.fail_count else r.fail_count + 1
        let new_avg :=
          match find_time_ms with
          | some t =>
            if t ≠ 0 && success then
              if new_success > 0 then
                (r.avg_find_time_ms * r.success_count + t) / new_success
              else t
            else r.avg_find_time_ms
          | none => r.avg_find_time_ms
        { r with success_count := new_success, fail_count := new_fail,
                 last_used := now, avg_find_time_ms := new_avg }
      else r)
  else
    recs ++ [{ selector := selector,
               success_count := if success then 1 else 0,
               fail_count := if success then 0 else 1,
               last_used := now,
               avg_find_time_ms := find_time_ms.getD 0 }]

/-- The `ORDER BY (success_count - fail_count) DESC, avg_find_time_ms
ASC` comparison of `get_best_selector`. -/
def selOrder (a b : SelRecord) : Bool :=
  if ((b.success_count : Int) - b.fail_count) <
      ((a.success_count : Int) - a.fail_count) then true
  else if ((a.success_count : Int) - a.fail_count) <
      ((b.success_count : Int) - b.fail_count) then false
  else a.avg_find_time_ms ≤ b.avg_find_time_ms

/-- `GET /cache/element/{domain}/{element_type}` (`get_best_selector`):
rows with `success_count > fail_count`, ordered by `(success - fail)`
descending then average find time ascending, limited to 5.  (On an empty
result the route raises 404 and `DuckDBClient.get_best_selectors`
returns the empty list.) -/
def get_best_selector (recs : List SelRecord) : List SelRecord :=
  (insertionSortBy selOrder
    (recs.filter (fun r => r.fail_count < r.success_count))).take 5

/-! ## Last-result slot (`app/services/agent_manager.py`) -/

/-- The `AgentManager` fields backing reconnection. -/
structure AgentSlot where
  last_result : Option String
  last_result_time : Option Nat
  last_query : Option String
deriving Repr, DecidableEq

/-- A fresh `AgentManager`: no completed run yet. -/
def initAgentSlot : AgentSlot := ⟨none, none, none⟩

/-- The store at the end of `run_agent_streaming` (lines 225–228): the
formatted final answer, the completion time, and the query. -/
def storeResult (_st : AgentSlot) (formatted query : String) (now : Nat) :
    AgentSlot :=
  ⟨some formatted, some now, some query⟩

/-- The `/last-result` response record. -/
structure LastResult where
  result : String
  query : Option String
  timestamp : Nat
  age_seconds : Nat
deriving Repr, DecidableEq

/-- Python truthiness of `Optional[str]` (`None` and `''` are falsy). -/
def pyTruthyStr : Option String → Bool
  | none => false
  | some s => !s.isEmpty

/-- Python truthiness of an optional timestamp (`None` and `0` are
falsy). -/
def pyTruthyNat : Option Nat → Bool
  | none => false
  | some n => n != 0

/-- `AgentManager.get_last_result(max_age_seconds)`: `None` unless a
truthy result and timestamp exist and the age is within the window. -/
def get_last_result (st : AgentSlot) (now : Nat) (max_age_seconds : Nat := 300) :
    Option LastResult :=
  if !(pyTruthyStr st.last_result) || !(pyTruthyNat st.last_result_time) then
    none
  else
    let t := st.last_result_time.getD 0
    let age := now - t
    if age > max_age_seconds then none
    else some ⟨st.last_result.getD "", st.last_query, t, age⟩

/-! ## Invariants of the tab state machine -/

/-- The tab-state invariant: a tab always exists, at most three
background tabs are open, and the main tab is focused. -/
def TabInv (st : BrowserState) : Prop :=
  st.tabs ≠ [] ∧ st.tabs.length ≤ 4 ∧ st.focused = 0

/-- `(success - fail)`, the first sort key of `get_best_selector`. -/
def sf (r : SelRecord) : Int := (r.success_count : Int) - r.fail_count

/-- The spec's seed scenario: 10 successes and 2 failures for
`article.main`, 5 successes and 5 failures for `.post-body`, recorded
through `cache_element`. -/
def selectorScenario : List SelRecord :=
  ((List.replicate 10 ("article.main", true) ++
    List.replicate 2 ("article.main", false) ++
    List.replicate 5 (".post-body", true) ++
    List.replicate 5 (".post-body", false)) :
      List (String × Bool)).foldl
    (fun rs p => cache_element rs 0 p.1 p.2 none) []

/-! ## Claim C2: URL variants and key determinism

A URL variant is described structurally and rendered to the string the
generator receives; the hypotheses of the claim ("differ only in
tracking parameters, fragment, trailing slash, host case") become
relations between the structural parts. -/

/-- Render a query pair list as `k=v` fields joined by `&`. -/
def renderQuery (q : List (Chars × Chars)) : Chars :=
  joinChar '&' (q.map (fun kv => kv.1 ++ '=' :: kv.2))

/-- Render an optional fragment with its `#` marker. -/
def renderFrag : Option Chars → Chars
  | some fr => '#' :: fr
  | none => []

/-- Render a structured URL: scheme, host, path, optional trailing
slash, query, optional fragment. -/
def renderUrl (scheme host path : Chars) (q : List (Chars × Chars))
    (f : Option Chars) (t : Bool) : Chars :=
  scheme ++ "://".data ++ host ++ path ++ (if t then ['/'] else []) ++
    (if q = [] then [] else '?' :: renderQuery q) ++ renderFrag f

/-- Characters allowed in a hostname here: letters, digits, dots,
hyphens (no separators, no percent escapes, no ports). -/
def hostChar (c : Char) : Bool := c.isAlphanum || c == '.' || c == '-'

/-- Characters allowed in query keys and values here: alphanumerics and
underscore (so the `utm_*` and `_ga`-family tracking keys are covered);
all are fixed points of `quote_plus`/`unquote_plus`. -/
def queryChar (c : Char) : Bool := c.isAlphanum || c == '_'

/-- Characters allowed in a path here: the characters `quote` keeps with
the `safe` set `normalize_url` uses (percent signs excluded, so
`quote`/`unquote` are the identity). -/
def pathChar (c : Char) : Bool := alwaysSafe c || pathSafe.contains c

/-- No two adjacent slashes (so slash collapsing is the identity). -/
abbrev NoDupSlash (s : Chars) : Prop :=
  List.Chain' (fun a b => ¬(a = '/' ∧ b = '/')) s

/-- A well-formed hostname (closure of the character set under
lowercasing is part of the hypothesis, discharged by `decide` at
concrete hosts). -/
abbrev WellFormedHost (h : Chars) : Prop :=
  h ≠ [] ∧ (∀ c ∈ h, hostChar c = true) ∧
    (∀ c ∈ lowerChars h, hostChar c = true)

/-- A well-formed path: absolute, over the safe character set, no
duplicate slashes, no trailing slash (the trailing slash is a separate
render flag). -/
abbrev WellFormedPath (p : Chars) : Prop :=
  p.head? = some '/' ∧ (∀ c ∈ p, pathChar c = true) ∧
    NoDupSlash p ∧ p.getLast? ≠ some '/'

/-- Well-formed query pairs: nonempty alphanumeric keys and values. -/
abbrev WellFormedQuery (q : List (Chars × Chars)) : Prop :=
  ∀ kv ∈ q, kv.1 ≠ [] ∧ kv.2 ≠ [] ∧ (∀ c ∈ kv.1, queryChar c = true) ∧
    (∀ c ∈ kv.2, queryChar c = true)

/-- "Differ only in tracking parameters": the queries agree after
dropping the keys of `EXCLUDED_PARAMS`. -/
def dropTracking (q : List (Chars × Chars)) : List (Chars × Chars) :=
  q.filter (fun kv => !(EXCLUDED_PARAMS.contains (lowerChars kv.1)))

/-- The canonical query `normalize_url` produces, as a function of the
tracking-stripped pairs. -/
def canonQuery (q : List (Chars × Chars)) : Chars :=
  let params := (groupByKey (dropTracking q)).map
    (fun kv => (kv.1, insertionSortBy lexLe kv.2))
  let sorted := insertionSortBy (fun a b => lexLe a.1 b.1) params
  if sorted ≠ [] then urlencodeDoseq sorted else []

/-! ### The normalization pipeline after parsing

`normCore` repeats the post-parse steps of `normalize_url` as a function
of the parsed components, so that `normalize_url` on a rendered URL can
be rewritten into a function of the structured parts. -/

/-- `parsed.scheme or 'https'`. -/
def defScheme (s : Chars) : Chars := if s = [] then "https".data else s

/-- Default-port removal on the lowercased netloc. -/
def portStrip (scheme netloc : Chars) : Chars :=
  if containsSub netloc ":80".data && scheme == "http".data then
    replaceAll netloc ":80".data []
  else if containsSub netloc ":443".data && scheme == "https".data then
    replaceAll netloc ":443".data []
  else netloc

/-- Path pipeline before the trailing-slash step: default to `/`,
collapse slashes, re-quote. -/
def normPath0 (p : Chars) : Chars :=
  quoteChars pathSafe (unquoteChars (collapseSlashes
    (if p = [] then "/".data else p)))

/-- Full path pipeline including trailing-slash removal. -/
def normPath (p : Chars) : Chars :=
  if normPath0 p ≠ "/".data && (normPath0 p).getLast? == some '/' then
    (normPath0 p).dropLast
  else normPath0 p

/-- Query pipeline: normalize when nonempty. -/
def normQTail (query0 netloc : Chars) : Chars :=
  if query0 ≠ [] then normalizeQueryParams query0 netloc none else []

/-- The tail of `normalize_url` as a function of the parsed scheme, the
lowercased netloc, the parsed path and the parsed query. -/
def normCore (scheme0 netloc0 path0 query0 : Chars) : Chars :=
  defScheme scheme0 ++ "://".data ++ portStrip (defScheme scheme0) netloc0 ++
    normPath path0 ++
    (if normQTail query0 (portStrip (defScheme scheme0) netloc0) ≠ [] then
      '?' :: normQTail query0 (portStrip (defScheme scheme0) netloc0)
    else [])

theorem tabInv_initial : TabInv initialBrowserState := by
  refine ⟨?_, ?_, rfl⟩ <;> simp [initialBrowserState]

theorem tabInv_step (st : BrowserState) (op : TabOp) (h : TabInv st) :
    TabInv (applyTabOp st op) := by
  obtain ⟨hne, hlen, hfoc⟩ := h
  cases op with
  | openBackground url =>
    simp only [applyTabOp, create_background_tab]
    split
    · exact ⟨hne, hlen, hfoc⟩
    · rename_i hceil
      refine ⟨by simp, ?_, hfoc⟩
      have : st.tabs.length - 1 < 3 := by omega
      simp only [List.length_append, List.length_cons, List.length_nil]
      omega
  | closeTab idx =>
    simp only [applyTabOp, close_tab]
    split
    · exact ⟨hne, hlen, hfoc⟩
    · split
      · exact ⟨hne, hlen, hfoc⟩
      · rename_i hzero hrange
        simp only [Bool.or_eq_true, decide_eq_true_eq, not_or, not_lt, not_le]
          at hrange
        obtain ⟨hge, hlt⟩ := hrange
        have hlt' : idx.toNat < st.tabs.length := by omega
        have h1 : 1 ≤ idx.toNat := by omega
        have herase := List.length_eraseIdx (l := st.tabs) (i := idx.toNat)
        rw [if_pos hlt'] at herase
        refine ⟨?_, ?_, rfl⟩
        · show st.tabs.eraseIdx idx.toNat ≠ []
          intro hcon
          have h0 := congrArg List.length hcon
          simp only [List.length_nil] at h0
          omega
        · show (st.tabs.eraseIdx idx.toNat).length ≤ 4
          omega
  | navigate url =>
    simp only [applyTabOp]
    refine ⟨?_, ?_, hfoc⟩
    · show st.tabs.set 0 url ≠ []
      intro hcon
      have h0 := congrArg List.length hcon
      rw [List.length_set] at h0
      simp only [List.length_nil] at h0
      exact hne (List.length_eq_zero.mp h0)
    · show (st.tabs.set 0 url).length ≤ 4
      simpa using hlen

theorem tabInv_foldl (ops : List TabOp) (st : BrowserState) (h : TabInv st) :
    TabInv (ops.foldl applyTabOp st) := by
  induction ops generalizing st with
  | nil => exact h
  | cons op rest ih => exact ih _ (tabInv_step st op h)

theorem tabInv_reachable (st : BrowserState) (h : ReachableTabState st) :
    TabInv st := by
  obtain ⟨ops, rfl⟩ := h
  exact tabInv_foldl ops _ tabInv_initial

/-- C1: For every sequence of tab operations starting from the initial
browser state, tab 0 exists, `/tabs/list` reports index 0 first, marked
as the main tab and non-closeable, and a close request for tab index 0
is rejected with an HTTP 400 error while leaving the tab state
unchanged. -/
theorem claim_C1 (ops : List TabOp) :
    (ops.foldl applyTabOp initialBrowserState).tabs ≠ [] ∧
    (list_tabs (ops.foldl applyTabOp initialBrowserState)).2.head? =
      (ops.foldl applyTabOp initialBrowserState).tabs.head?.map
        (fun u => ⟨0, u, true, false⟩) ∧
    close_tab (ops.foldl applyTabOp initialBrowserState) 0 =
      (.httpError 400
        "Cannot close main tab (tab 0). Only background tabs can be closed.",
       ops.foldl applyTabOp initialBrowserState) := by
  obtain ⟨hne, -, -⟩ := tabInv_foldl ops _ tabInv_initial
  refine ⟨hne, ?_, by simp [close_tab]⟩
  cases h : (ops.foldl applyTabOp initialBrowserState).tabs with
  | nil => exact absurd h hne
  | cons u rest => simp [list_tabs, h, List.enum_cons]

/-- C9: every open-background-tab request on a reachable state respects
the ceiling of 3 background tabs, and a successful request appends a tab
at an index ≥ 1, returns that index together with the total tab count,
and leaves tab 0 focused. -/
theorem claim_C9 (st : BrowserState) (h : ReachableTabState st) (url : String) :
    st.tabs.length - 1 ≤ 3 ∧
    (∀ idx total st',
      create_background_tab st url = (.ok (idx, total), st') →
      1 ≤ idx ∧ total = st'.tabs.length ∧ idx + 1 = total ∧
      st'.focused = 0 ∧ st'.tabs.head? = st.tabs.head? ∧
      st'.tabs.length - 1 ≤ 3) := by
  obtain ⟨hne, hlen, hfoc⟩ := tabInv_reachable st h
  refine ⟨by omega, ?_⟩
  intro idx total st' hok
  have hlen1 : 1 ≤ st.tabs.length := List.length_pos.mpr hne
  simp only [create_background_tab] at hok
  split at hok
  · exact absurd hok (by simp)
  · rename_i hceil
    have hceil' : st.tabs.length ≤ 3 := by omega
    rw [Prod.mk.injEq, Except.ok.injEq, Prod.mk.injEq] at hok
    obtain ⟨⟨hidx, htot⟩, hst⟩ := hok
    subst hst
    simp only [List.length_append, List.length_cons, List.length_nil] at hidx htot
    refine ⟨by omega, by simp; omega, by omega, hfoc, ?_, by simp; omega⟩
    cases htabs : st.tabs with
    | nil => exact absurd htabs hne
    | cons a l => simp [htabs]

/-- Witness for C9 at the initial state (reachable via the empty
operation sequence). -/
theorem claim_C9_witness :
    initialBrowserState.tabs.length - 1 ≤ 3 ∧
    (∀ idx total st',
      create_background_tab initialBrowserState "about:blank" =
        (.ok (idx, total), st') →
      1 ≤ idx ∧ total = st'.tabs.length ∧ idx + 1 = total ∧
      st'.focused = 0 ∧ st'.tabs.head? = initialBrowserState.tabs.head? ∧
      st'.tabs.length - 1 ≤ 3) :=
  claim_C9 initialBrowserState ⟨[], rfl⟩ "about:blank"

/-! ## Final-answer repair: supporting lemmas and claim C3 -/

theorem countSubAux_pos (pat : Chars) (hpat : pat ≠ []) :
    ∀ fuel s, s.length ≤ fuel → containsSub s pat = true →
      0 < countSubAux pat fuel s := by
  intro fuel
  induction fuel with
  | zero =>
    intro s hlen hsub
    interval_cases hs : s.length
    have : s = [] := List.length_eq_zero.mp (by omega)
    subst this
    simp [containsSub, List.isEmpty_iff, hpat] at hsub
  | succ n ih =>
    intro s hlen hsub
    cases s with
    | nil => simp [containsSub, List.isEmpty_iff, hpat] at hsub
    | cons c rest =>
      simp only [countSubAux]
      split
      · omega
      · rename_i hcond
        simp only [containsSub, Bool.or_eq_true] at hsub
        rcases hsub with hpre | hrest
        · exact absurd (by simp [hpat, hpre]) hcond
        · have hlen' : rest.length ≤ n := by
            simp only [List.length_cons] at hlen
            omega
          have := ih rest hlen' hrest
          omega

theorem countSub_pos (s pat : Chars) (hpat : pat ≠ [])
    (h : containsSub s pat = true) : 0 < countSub s pat :=
  countSubAux_pos pat hpat s.length s le_rfl h

theorem filterFA_le_codeCountFA (lines : List Chars) :
    (lines.filter isFinalAnswerLine).length ≤ codeCountFA lines := by
  unfold codeCountFA
  induction lines with
  | nil => simp
  | cons l rest ih =>
    rw [List.filter_cons, List.map_cons, List.sum_cons]
    by_cases hfa : isFinalAnswerLine l = true
    · rw [if_pos hfa]
      have hsub : containsSub l "final_answer".data = true := by
        simp only [isFinalAnswerLine, Bool.and_eq_true] at hfa
        exact hfa.1
      have hpos := countSub_pos l "final_answer".data (by decide) hsub
      rw [List.length_cons]
      omega
    · rw [if_neg hfa]
      omega

theorem getLastD_mem (l : List Chars) (d : Chars) (h : l ≠ []) :
    l.getLastD d ∈ l := by
  induction l with
  | nil => exact absurd rfl h
  | cons a rest ih =>
    cases rest with
    | nil => simp [List.getLastD]
    | cons b r =>
      have := ih (by simp)
      simp only [List.getLastD] at this ⊢
      exact List.mem_cons_of_mem a this

/-- C3: for a code block with more than one non-comment `final_answer`
line (and at least one other line), the repair stage keeps the other
lines in their original order, deletes every `final_answer` line but the
last, and places that surviving call after all remaining statements — so
a block `final_answer("A")`; navigate; `final_answer("B")` repairs to
the navigate call followed by `final_answer("B")`, making `"B"` the
run's final answer. -/
theorem claim_C3 (lines : List Chars)
    (hmulti : 1 < (lines.filter isFinalAnswerLine).length)
    (hothers : lines.filter (fun l => !isFinalAnswerLine l) ≠ []) :
    executeRepairFA lines =
      lines.filter (fun l => !isFinalAnswerLine l) ++
        [(lines.filter isFinalAnswerLine).getLastD []] ∧
    (executeRepairFA lines).filter isFinalAnswerLine =
      [(lines.filter isFinalAnswerLine).getLastD []] ∧
    (executeRepairFA lines).getLast? =
      some ((lines.filter isFinalAnswerLine).getLastD []) := by
  have hgate : 1 < codeCountFA lines :=
    lt_of_lt_of_le hmulti (filterFA_le_codeCountFA lines)
  have hfane : lines.filter isFinalAnswerLine ≠ [] := by
    intro hc
    rw [hc] at hmulti
    simp at hmulti
  have hrepair : executeRepairFA lines =
      lines.filter (fun l => !isFinalAnswerLine l) ++
        [(lines.filter isFinalAnswerLine).getLastD []] := by
    unfold executeRepairFA restructure_code
    rw [if_pos hgate, if_pos hmulti,
      if_neg (fun h => hothers (List.isEmpty_iff.mp h))]
  refine ⟨hrepair, ?_, ?_⟩
  · rw [hrepair, List.filter_append]
    have h1 : (lines.filter (fun l => !isFinalAnswerLine l)).filter
        isFinalAnswerLine = [] := by
      rw [List.filter_eq_nil_iff]
      intro a ha
      have := (List.mem_filter.mp ha).2
      simp only [Bool.not_eq_true'] at this
      simp [this]
    have h2 : isFinalAnswerLine ((lines.filter isFinalAnswerLine).getLastD [])
        = true :=
      (List.mem_filter.mp (getLastD_mem _ [] hfane)).2
    rw [h1, List.nil_append, List.filter_cons, if_pos h2, List.filter_nil]
  · rw [hrepair]
    simp

/-- C3 witness: the spec's seed block repairs to the navigate call
followed by `final_answer("B")`. -/
theorem claim_C3_witness :
    executeRepairFA
        ["final_answer(\"A\")".data,
         "navigate_browser(url=\"https://example.com\")".data,
         "final_answer(\"B\")".data] =
      ["navigate_browser(url=\"https://example.com\")".data,
       "final_answer(\"B\")".data] := by
  have h := claim_C3
    ["final_answer(\"A\")".data,
     "navigate_browser(url=\"https://example.com\")".data,
     "final_answer(\"B\")".data] (by decide) (by decide)
  rw [h.1]
  decide

/-! ## Claim C10: cache-key component ambiguity -/

/-- C10: `generate_cache_key` drops falsy selector/context fields and
joins the surviving components without marking their origin: a selector
that is a fixed point of selector normalization and of lowercase-trim
produces the same key whether passed as selector or as context, and an
empty-string selector keys identically to no selector at all. -/
theorem claim_C10 (url s c : Chars)
    (hsel : normalizeSelector s = s)
    (hlt : stripChars (lowerChars s) = s) :
    generate_cache_key url (some s) none = generate_cache_key url none (some s) ∧
    generate_cache_key url (some []) (some c) =
      generate_cache_key url none (some c) := by
  constructor
  · unfold generate_cache_key
    simp only [hsel, hlt]
    by_cases hs : s = []
    · subst hs
      simp
    · simp [hs]
  · unfold generate_cache_key
    simp

/-- C10 witness at a concrete fixed-point selector. -/
theorem claim_C10_witness :
    normalizeSelector "main".data = "main".data ∧
    stripChars (lowerChars "main".data) = "main".data ∧
    generate_cache_key "https://example.com/a".data (some "main".data) none =
      generate_cache_key "https://example.com/a".data none (some "main".data) ∧
    generate_cache_key "https://example.com/a".data (some []) (some "ctx".data) =
      generate_cache_key "https://example.com/a".data none (some "ctx".data) := by
  refine ⟨by decide, by decide, ?_⟩
  exact claim_C10 "https://example.com/a".data "main".data "ctx".data
    (by decide) (by decide)

/-! ## Claim C8: the reconnection window -/

/-- C8 (amended): after a run completes and stores a non-empty formatted
answer at a nonzero time, `get_last_result(300)` returns exactly that
answer (with query, timestamp and age) iff the completion lies within
the last 300 seconds. -/
theorem claim_C8 (st : AgentSlot) (formatted query : String) (tdone now : Nat)
    (hne : formatted ≠ "") (ht : tdone ≠ 0) :
    get_last_result (storeResult st formatted query tdone) now 300 =
      if now - tdone ≤ 300 then
        some ⟨formatted, some query, tdone, now - tdone⟩
      else none := by
  have h1 : formatted.isEmpty = false := by
    cases h : formatted.isEmpty
    · rfl
    · exact absurd ((String.isEmpty_iff formatted).mp h) hne
  have h2 : (tdone != 0) = true := by simpa using ht
  unfold get_last_result storeResult
  simp only [pyTruthyStr, pyTruthyNat, h1, h2, Bool.not_false, Bool.not_true,
    Bool.or_self, Bool.false_eq_true, if_false, Option.getD_some]
  split_ifs with hgt hle
  · omega
  · rfl
  · rfl
  · omega

/-- C8 counterexample: a run that completed 10 seconds ago but stored an
empty formatted answer is not returned, refuting the unconditional
"iff within 300 seconds". -/
theorem claim_C8_counterexample :
    get_last_result (storeResult initAgentSlot "" "q" 100) 110 300 = none ∧
    110 - 100 ≤ 300 := by
  decide

/-- C8 witness: a non-empty answer stored at t=100 is returned at
t=150 with age 50. -/
theorem claim_C8_witness :
    "answer" ≠ "" ∧ (100 : Nat) ≠ 0 ∧
    get_last_result (storeResult initAgentSlot "answer" "q" 100) 150 300 =
      some ⟨"answer", some "q", 100, 50⟩ := by
  refine ⟨by decide, by decide, ?_⟩
  rw [claim_C8 initAgentSlot "answer" "q" 100 150 (by decide) (by decide)]
  decide

/-! ## Claim C6: per-entry TTL expiry of the L1 sweep -/

/-- C6, evaluated on the failing input: an entry stored with TTL 7200 at
t=0 is removed by the sweep at t=4000 although its TTL has not elapsed,
while an entry stored with TTL 60 is retained at t=120 although its TTL
has elapsed — `BoundedLRUCache.set` discards its `ttl` argument and
`clear_expired` uses a fixed 3600-second age. -/
theorem claim_C6_code_eval :
    (lruClearExpired
        (lruSet (lruInit 5000 200000000) "k" ⟨"v", 100⟩ 7200 0) 4000).entries
      = [] ∧
    (4000 : Nat) < 7200 ∧
    (lruClearExpired
        (lruSet (lruInit 5000 200000000) "k2" ⟨"w", 50⟩ 60 0) 120).entries
      = [("k2", ⟨"w", 50⟩, 0)] ∧
    (60 : Nat) < 120 := by
  decide

/-! ## Tiered-cache lemmas and claims C5, C4 -/

/-- Looking up the upserted key finds the fresh value, for the
replace-in-place-or-append pattern shared by the L1 map and the L2
store. -/
theorem find?_upsert {α : Type} (l : List (String × α)) (key : String) (v : α) :
    (if l.any (fun kv => kv.1 == key) then
        l.map (fun kv => if kv.1 == key then (key, v) else kv)
      else l ++ [(key, v)]).find? (fun kv => kv.1 == key) = some (key, v) := by
  by_cases hany : l.any (fun kv => kv.1 == key) = true
  · rw [if_pos hany]
    induction l with
    | nil => simp at hany
    | cons kv rest ih =>
      simp only [List.any_cons, Bool.or_eq_true] at hany
      by_cases hk : (kv.1 == key) = true
      · have hmap : (if kv.1 == key then (key, v) else kv) = (key, v) := by
          rw [if_pos hk]
        rw [List.map_cons, hmap, List.find?_cons_of_pos _ (by simp)]
      · have hmap : (if kv.1 == key then (key, v) else kv) = kv := by
          rw [if_neg (by simpa using hk)]
        rw [List.map_cons, hmap, List.find?_cons_of_neg _ (by simpa using hk)]
        exact ih (hany.resolve_left hk)
  · rw [if_neg hany]
    induction l with
    | nil => simp
    | cons kv rest ih =>
      simp only [List.any_cons, Bool.or_eq_true, not_or] at hany
      rw [List.cons_append,
        List.find?_cons_of_neg _ (by simpa using hany.1)]
      exact ih (by simpa using hany.2)

theorem l2upsert_find? (st : L2Store) (key : String) (row : L2Row) :
    (l2upsert st key row).find? (fun kv => kv.1 == key) = some (key, row) := by
  unfold l2upsert
  exact find?_upsert st key row

theorem l1set_find? (l1 : L1Map) (key : String) (v : Payload) (ttl : Nat) :
    (l1set l1 key v ttl).find? (fun kv => kv.1 == key) = some (key, v, ttl) := by
  unfold l1set
  exact find?_upsert l1 key (v, ttl)

/-- A non-zero TTL policy implies the request is not bypassed. -/
theorem not_bypass_of_ttl_ne_zero (url selector context : Chars)
    (h : get_cache_ttl url selector context ≠ 0) :
    should_bypass_cache url selector context = false := by
  by_contra hcon
  have hb : should_bypass_cache url selector context = true := by
    cases hx : should_bypass_cache url selector context
    · exact absurd hx hcon
    · rfl
  unfold get_cache_ttl at h
  rw [if_pos hb] at h
  exact h rfl

/-- C5 (amended): for a put whose TTL policy is non-zero and whose key
is not yet in L2, the entry lands in L2 exactly when the selector is
`universal`, the policy TTL is at least 3600 s, or the encoded payload
strictly exceeds 10000 bytes. -/
theorem claim_C5 (st : SvcState) (now : Nat) (url : String)
    (selector : Option String) (data : Payload) (context : String)
    (httl : get_cache_ttl url.data (selector.getD "").data context.data ≠ 0)
    (habsent : st.l2.find?
      (fun kv => kv.1 == make_url_key url selector context) = none) :
    ((cache_extraction st now url selector data context).l2.any
        (fun kv => kv.1 == make_url_key url selector context) = true) ↔
      ((selector.getD "") = "universal" ∨
        3600 ≤ get_cache_ttl url.data (selector.getD "").data context.data ∨
        10000 < data.encodedSize) := by
  simp only [cache_extraction]
  rw [if_neg httl]
  split
  · rename_i hper
    simp only [Bool.or_eq_true, beq_iff_eq, decide_eq_true_eq] at hper
    constructor
    · intro _
      rcases hper with (h | h) | h
      · exact Or.inl h
      · exact Or.inr (Or.inl h)
      · exact Or.inr (Or.inr h)
    · intro _
      show (store_cached_page st.l2 now (make_url_key url selector context)
        url data _ data.title (selector.getD "") data.extraction_method).any
          (fun kv => kv.1 == make_url_key url selector context) = true
      unfold store_cached_page
      rw [List.any_eq_true]
      refine ⟨_, List.mem_of_find?_eq_some (l2upsert_find? _ _ _), by simp⟩
  · rename_i hper
    simp only [Bool.or_eq_true, beq_iff_eq, decide_eq_true_eq, not_or] at hper
    obtain ⟨⟨h1, h2⟩, h3⟩ := hper
    constructor
    · intro hany
      exfalso
      rw [List.any_eq_true] at hany
      obtain ⟨kv, hmem, hkv⟩ := hany
      rw [List.find?_eq_none] at habsent
      exact habsent kv hmem hkv
    · intro hc
      rcases hc with h | h | h
      · exact absurd h h1
      · exact absurd h h2
      · exact absurd h h3

/-- C5 counterexample: a put with TTL policy 1800 and an encoded payload
of exactly 10000 bytes is not persisted to L2, refuting "payload at
least 10 kB triggers L2 persistence". -/
theorem claim_C5_counterexample :
    get_cache_ttl "https://example.com/p".data "content".data "".data = 1800 ∧
    (10000 : Nat) ≤
      (Payload.mk "" "x" "" "" "" 0 "unknown" false "" "" 10000).encodedSize ∧
    (cache_extraction ⟨[], []⟩ 0 "https://example.com/p" (some "content")
        (Payload.mk "" "x" "" "" "" 0 "unknown" false "" "" 10000) "").l2
      = [] := by
  refine ⟨by decide, by decide, ?_⟩
  decide

/-- C5 witness: a structural selector (`nav`, TTL 86400) persists. -/
theorem claim_C5_witness :
    get_cache_ttl "https://docs.example.org/guide".data "nav".data "".data ≠ 0 ∧
    (([] : L2Store).find? (fun kv =>
      kv.1 == make_url_key "https://docs.example.org/guide" (some "nav") "")
        = none) ∧
    (((cache_extraction ⟨[], []⟩ 0 "https://docs.example.org/guide" (some "nav")
        (Payload.mk "" "guide text" "" "" "" 0 "unknown" false "" "" 12000)
        "").l2.any (fun kv =>
          kv.1 == make_url_key "https://docs.example.org/guide" (some "nav") "")
        = true) ↔
      (("nav" : String) = "universal" ∨
        3600 ≤ get_cache_ttl "https://docs.example.org/guide".data "nav".data
          "".data ∨
        10000 <
          (Payload.mk "" "guide text" "" "" "" 0 "unknown" false "" "" 12000
            ).encodedSize)) := by
  refine ⟨by decide, rfl, ?_⟩
  exact claim_C5 ⟨[], []⟩ 0 "https://docs.example.org/guide" (some "nav")
    (Payload.mk "" "guide text" "" "" "" 0 "unknown" false "" "" 12000) ""
    (by decide) rfl

/-- C4 (amended): after a put whose policy TTL is non-zero and which
meets an L2-persistence condition, evicting the key from L1 and issuing
a get while the L2 entry is unexpired serves the entry from L2: the
result is a payload whose `data` field carries the content extracted
from the original payload, tagged `cache_layer = L2_duckdb`, and it is
written back to L1 with the client's fixed default TTL of 3600 seconds
(not the remaining TTL of the L2 entry). -/
theorem claim_C4 (l1₀ : L1Map) (l2₀ : L2Store) (now nowGet : Nat) (url : String)
    (selector : Option String) (data : Payload) (context : String)
    (httl : get_cache_ttl url.data (selector.getD "").data context.data ≠ 0)
    (hper : (selector.getD "") = "universal" ∨
      3600 ≤ get_cache_ttl url.data (selector.getD "").data context.data ∨
      10000 < data.encodedSize)
    (hfresh : nowGet <
      now + get_cache_ttl url.data (selector.getD "").data context.data) :
    ∃ p : Payload,
      (get_cached_extraction
        ⟨[], (cache_extraction ⟨l1₀, l2₀⟩ now url selector data context).l2⟩
        nowGet url selector context).1 = some p ∧
      p.dataStr = contentOf data ∧
      p.cache_layer = "L2_duckdb" ∧
      p.cached = true ∧
      (get_cached_extraction
        ⟨[], (cache_extraction ⟨l1₀, l2₀⟩ now url selector data context).l2⟩
        nowGet url selector context).2.l1 =
        [(make_url_key url selector context, p, 3600)] := by
  have hbp : should_bypass_cache url.data (selector.getD "").data context.data
      = false :=
    not_bypass_of_ttl_ne_zero _ _ _ httl
  have hperBool : ((selector.getD "" == "universal") ||
      get_cache_ttl url.data (selector.getD "").data context.data ≥ 3600 ||
      data.encodedSize > 10000) = true := by
    rcases hper with h | h | h <;> simp [h]
  have hl2 : (cache_extraction ⟨l1₀, l2₀⟩ now url selector data context).l2 =
      store_cached_page l2₀ now (make_url_key url selector context) url data
        (get_cache_ttl url.data (selector.getD "").data context.data)
        data.title (selector.getD "") data.extraction_method := by
    simp only [cache_extraction]
    rw [if_neg httl, if_pos hperBool]
  have hrow : (store_cached_page l2₀ now (make_url_key url selector context)
      url data (get_cache_ttl url.data (selector.getD "").data context.data)
      data.title (selector.getD "") data.extraction_method).find?
        (fun kv => kv.1 == make_url_key url selector context) =
      some (make_url_key url selector context,
        { url := url, title := data.title, content := contentOf data,
          word_count := (splitWhitespace (contentOf data).data).length,
          selector_used := selector.getD "",
          extraction_method := data.extraction_method,
          extracted_at := now,
          ttl_expires := now +
            get_cache_ttl url.data (selector.getD "").data context.data }) := by
    unfold store_cached_page
    exact l2upsert_find? _ _ _
  simp only [get_cached_extraction, hbp, Bool.false_eq_true, if_false]
  have hl1get : l1get [] (make_url_key url selector context) = none := rfl
  rw [hl1get, hl2]
  simp only [get_cached_page, l2get_page, hrow]
  rw [if_pos hfresh]
  exact ⟨_, rfl, rfl, rfl, rfl, rfl⟩

set_option maxRecDepth 40000 in
/-- C4 counterexample: a put with policy TTL 86400 is served back from
L2 with its full 86400 s remaining, yet the L1 write-back uses the
fixed default TTL 3600 — not the remaining TTL of the L2 entry. -/
theorem claim_C4_counterexample :
    ((cache_extraction ⟨[], []⟩ 0 "https://docs.example.org/guide" (some "nav")
        (Payload.mk "" "guide text" "" "" "" 0 "unknown" false "" "" 12000)
        "").l2.map (fun kv => kv.2.ttl_expires - 0)) = [86400] ∧
    ((get_cached_extraction
        ⟨[], (cache_extraction ⟨[], []⟩ 0 "https://docs.example.org/guide"
          (some "nav")
          (Payload.mk "" "guide text" "" "" "" 0 "unknown" false "" "" 12000)
          "").l2⟩
        0 "https://docs.example.org/guide" (some "nav") "").2.l1.map
      (fun kv => kv.2.2)) = [3600] ∧
    (3600 : Nat) ≠ 86400 := by
  refine ⟨?_, ?_, by decide⟩ <;> decide

set_option maxRecDepth 40000 in
/-- C4 witness: concrete instantiation of the amended claim. -/
theorem claim_C4_witness :
    get_cache_ttl "https://docs.example.org/guide".data "nav".data "".data ≠ 0 ∧
    (∃ p : Payload,
      (get_cached_extraction
        ⟨[], (cache_extraction ⟨[], []⟩ 0 "https://docs.example.org/guide"
          (some "nav")
          (Payload.mk "" "guide text" "" "" "" 0 "unknown" false "" "" 12000)
          "").l2⟩
        7200 "https://docs.example.org/guide" (some "nav") "").1 = some p ∧
      p.dataStr = contentOf
        (Payload.mk "" "guide text" "" "" "" 0 "unknown" false "" "" 12000) ∧
      p.cache_layer = "L2_duckdb" ∧
      p.cached = true ∧
      (get_cached_extraction
        ⟨[], (cache_extraction ⟨[], []⟩ 0 "https://docs.example.org/guide"
          (some "nav")
          (Payload.mk "" "guide text" "" "" "" 0 "unknown" false "" "" 12000)
          "").l2⟩
        7200 "https://docs.example.org/guide" (some "nav") "").2.l1 =
        [(make_url_key "https://docs.example.org/guide" (some "nav") "",
          p, 3600)]) := by
  refine ⟨by decide, ?_⟩
  exact claim_C4 [] [] 0 7200 "https://docs.example.org/guide" (some "nav")
    (Payload.mk "" "guide text" "" "" "" 0 "unknown" false "" "" 12000) ""
    (by decide) (Or.inr (Or.inl (by decide))) (by decide)

/-! ## Sorting lemmas and claim C7 -/

theorem insertBy_perm (le : α → α → Bool) (x : α) (l : List α) :
    List.Perm (insertBy le x l) (x :: l) := by
  induction l with
  | nil => exact List.Perm.refl _
  | cons y ys ih =>
    unfold insertBy
    split
    · exact List.Perm.refl _
    · exact (List.Perm.cons y ih).trans (List.Perm.swap x y ys)

theorem insertionSortBy_perm (le : α → α → Bool) (l : List α) :
    List.Perm (insertionSortBy le l) l := by
  induction l with
  | nil => exact List.Perm.refl _
  | cons x xs ih =>
    exact (insertBy_perm le x _).trans (List.Perm.cons x ih)

theorem chain'_insertBy (le : α → α → Bool)
    (htot : ∀ a b, le a b = true ∨ le b a = true) (x : α) (l : List α)
    (hl : List.Chain' (fun a b => le a b = true) l) :
    List.Chain' (fun a b => le a b = true) (insertBy le x l) := by
  induction l with
  | nil => simp [insertBy]
  | cons y ys ih =>
    unfold insertBy
    split
    · rename_i hxy
      exact List.chain'_cons.mpr ⟨hxy, hl⟩
    · rename_i hxy
      have hyx : le y x = true := (htot x y).resolve_left (by simpa using hxy)
      have hys : List.Chain' (fun a b => le a b = true) ys := hl.tail
      have hins := ih hys
      cases hcase : insertBy le x ys with
      | nil => exact List.chain'_singleton y
      | cons z zs =>
        rw [List.chain'_cons]
        refine ⟨?_, hcase ▸ hins⟩
        cases ys with
        | nil =>
          simp only [insertBy] at hcase
          cases hcase
          exact hyx
        | cons w ws =>
          by_cases hxw : le x w = true
          · rw [insertBy, if_pos hxw] at hcase
            cases hcase
            exact hyx
          · rw [insertBy, if_neg (by simpa using hxw)] at hcase
            cases hcase
            exact (List.chain'_cons.mp hl).1

theorem chain'_insertionSortBy (le : α → α → Bool)
    (htot : ∀ a b, le a b = true ∨ le b a = true) (l : List α) :
    List.Chain' (fun a b => le a b = true) (insertionSortBy le l) := by
  induction l with
  | nil => simp [insertionSortBy]
  | cons x xs ih => exact chain'_insertBy le htot x _ ih

theorem selOrder_total (a b : SelRecord) :
    selOrder a b = true ∨ selOrder b a = true := by
  unfold selOrder
  split_ifs <;> simp_all <;> omega

theorem selOrder_iff (a b : SelRecord) :
    selOrder a b = true ↔
      (sf b < sf a ∨ (sf a = sf b ∧
        a.avg_find_time_ms ≤ b.avg_find_time_ms)) := by
  unfold selOrder sf
  split_ifs <;> simp_all <;> omega

/-- C7 (amended): `get_best_selector` returns the domain's
selector-performance records restricted to those with strictly more
successes than failures, ordered by `(success - fail)` descending then
average find time ascending, limited to 5; on the seed scenario the
first returned selector is `article.main`. -/
theorem claim_C7 :
    (∀ recs : List SelRecord,
      List.Chain' (fun a b => sf b < sf a ∨ (sf a = sf b ∧
          a.avg_find_time_ms ≤ b.avg_find_time_ms))
        (get_best_selector recs) ∧
      (∀ r ∈ get_best_selector recs, r.fail_count < r.success_count) ∧
      (get_best_selector recs).length ≤ 5 ∧
      (∀ r ∈ recs, r.fail_count < r.success_count →
        r ∈ get_best_selector recs ∨ (get_best_selector recs).length = 5)) ∧
    (get_best_selector selectorScenario).head?.map SelRecord.selector =
      some "article.main" := by
  constructor
  · intro recs
    have hperm := insertionSortBy_perm selOrder
      (recs.filter (fun r => r.fail_count < r.success_count))
    have hchain := chain'_insertionSortBy selOrder selOrder_total
      (recs.filter (fun r => r.fail_count < r.success_count))
    refine ⟨?_, ?_, ?_, ?_⟩
    · exact ((hchain.take 5).imp (fun a b hab => (selOrder_iff a b).mp hab))
    · intro r hr
      have hmem : r ∈ insertionSortBy selOrder
          (recs.filter (fun r => r.fail_count < r.success_count)) :=
        List.mem_of_mem_take hr
      have := (List.mem_filter.mp (hperm.mem_iff.mp hmem)).2
      simpa using this
    · simpa [get_best_selector] using
        (List.length_take_le 5 (insertionSortBy selOrder
          (recs.filter (fun r => r.fail_count < r.success_count))))
    · intro r hr hcond
      by_cases hlen : (insertionSortBy selOrder
          (recs.filter (fun r => r.fail_count < r.success_count))).length ≤ 5
      · left
        have hall : (insertionSortBy selOrder
            (recs.filter (fun r => r.fail_count < r.success_count))).take 5 =
            insertionSortBy selOrder
              (recs.filter (fun r => r.fail_count < r.success_count)) :=
          List.take_of_length_le hlen
        show r ∈ _
        unfold get_best_selector
        rw [hall]
        exact hperm.mem_iff.mpr
          (List.mem_filter.mpr ⟨hr, by simpa using hcond⟩)
      · right
        show (List.take 5 _).length = 5
        rw [List.length_take]
        omega
  · decide

/-- C7 counterexample: a record with as many failures as successes is
omitted entirely, while the claim's "ordered list of that domain's
selector-performance records ... limited to 5" would list it. -/
theorem claim_C7_counterexample :
    get_best_selector [⟨".a", 1, 1, 0, 0⟩] = [] ∧
    (insertionSortBy selOrder [⟨".a", 1, 1, 0, 0⟩]).take 5 ≠
      get_best_selector [⟨".a", 1, 1, 0, 0⟩] := by
  decide

/-- C7 witness: the top-5 completeness conjunct applied at a concrete
record set. -/
theorem claim_C7_witness :
    (⟨".a", 3, 1, 0, 0⟩ : SelRecord) ∈ get_best_selector [⟨".a", 3, 1, 0, 0⟩] ∨
    (get_best_selector [⟨".a", 3, 1, 0, 0⟩]).length = 5 :=
  (claim_C7.1 [⟨".a", 3, 1, 0, 0⟩]).2.2.2 ⟨".a", 3, 1, 0, 0⟩ (by decide)
    (by decide)

/-! ### String-splitting lemmas -/

theorem isPrefixChars_append_self (a b : Chars) :
    isPrefixChars a (a ++ b) = true := by
  induction a with
  | nil => rfl
  | cons c rest ih => simpa [isPrefixChars] using ih

theorem splitFirst_not_mem (c : Char) (s : Chars) (h : c ∉ s) :
    splitFirst c s = (s, none) := by
  induction s with
  | nil => rfl
  | cons x rest ih =>
    have hx : x ≠ c := fun hc => h (hc ▸ List.mem_cons_self x rest)
    have hr : c ∉ rest := fun hc => h (List.mem_cons_of_mem x hc)
    simp only [splitFirst, if_neg hx, ih hr]

theorem splitFirst_append (c : Char) (a b : Chars) (h : c ∉ a) :
    splitFirst c (a ++ c :: b) = (a, some b) := by
  induction a with
  | nil => simp [splitFirst]
  | cons x rest ih =>
    have hx : x ≠ c := fun hc => h (hc ▸ List.mem_cons_self x rest)
    have hr : c ∉ rest := fun hc => h (List.mem_cons_of_mem x hc)
    simp only [List.cons_append, splitFirst, if_neg hx, List.append_eq]
    rw [ih hr]

theorem takeWhile_all_append (p : Char → Bool) (a l : Chars)
    (h : ∀ x ∈ a, p x = true) :
    (a ++ l).takeWhile p = a ++ l.takeWhile p := by
  induction a with
  | nil => rfl
  | cons x rest ih =>
    have hx := h x (List.mem_cons_self x rest)
    rw [List.cons_append, List.takeWhile_cons, if_pos hx,
      ih (fun y hy => h y (List.mem_cons_of_mem x hy))]
    rfl

theorem unquoteChars_id (s : Chars) (h : ∀ c ∈ s, c ≠ '%') :
    unquoteChars s = s := by
  induction s with
  | nil => rfl
  | cons c rest ih =>
    have hc : c ≠ '%' := h c (List.mem_cons_self c rest)
    conv_lhs => rw [unquoteChars.eq_def]
    dsimp only
    rw [if_neg hc, ih (fun y hy => h y (List.mem_cons_of_mem c hy))]

theorem quoteChars_id (safe s : Chars)
    (h : ∀ c ∈ s, (alwaysSafe c || safe.contains c) = true) :
    quoteChars safe s = s := by
  induction s with
  | nil => rfl
  | cons c rest ih =>
    have hc := h c (List.mem_cons_self c rest)
    show quoteChar safe c ++ quoteChars safe rest = c :: rest
    rw [quoteChar, if_pos hc, ih (fun y hy => h y (List.mem_cons_of_mem c hy))]
    rfl

theorem collapseSlashes_id (s : Chars) (h : NoDupSlash s) :
    collapseSlashes s = s := by
  induction s with
  | nil => rfl
  | cons a rest ih =>
    cases rest with
    | nil => rfl
    | cons b r =>
      have hab : ¬(a = '/' ∧ b = '/') := (List.chain'_cons.mp h).1
      have htail : NoDupSlash (b :: r) := (List.chain'_cons.mp h).2
      show (if a == '/' && b == '/' then collapseSlashes (b :: r)
        else a :: collapseSlashes (b :: r)) = a :: b :: r
      rw [if_neg (by simpa using hab), ih htail]

theorem containsSub_false_of_not_mem (s : Chars) (p0 : Char) (pr : Chars)
    (h : ∀ c ∈ s, c ≠ p0) : containsSub s (p0 :: pr) = false := by
  induction s with
  | nil => rfl
  | cons x rest ih =>
    have hx : x ≠ p0 := h x (List.mem_cons_self x rest)
    show (isPrefixChars (p0 :: pr) (x :: rest) || containsSub rest (p0 :: pr))
      = false
    rw [ih (fun y hy => h y (List.mem_cons_of_mem x hy))]
    have hbx : (p0 == x) = false := beq_eq_false_iff_ne.mpr (fun hc => hx hc.symm)
    simp [isPrefixChars, hbx]

/-! ### Character-class facts -/

theorem pathChar_ne (c : Char) (h : pathChar c = true) :
    c ≠ '#' ∧ c ≠ '?' ∧ c ≠ '%' := by
  refine ⟨?_, ?_, ?_⟩ <;> intro hc <;> subst hc <;> revert h <;> decide

theorem queryChar_ne (c : Char) (h : queryChar c = true) :
    c ≠ '#' ∧ c ≠ '?' ∧ c ≠ '&' ∧ c ≠ '=' ∧ c ≠ '%' ∧ c ≠ '+' := by
  refine ⟨?_, ?_, ?_, ?_, ?_, ?_⟩ <;> intro hc <;> subst hc <;> revert h <;>
    decide

theorem hostChar_not_netlocEnd (c : Char) (h : hostChar c = true) :
    (!isNetlocEnd c) = true := by
  cases he : isNetlocEnd c
  · rfl
  · exfalso
    simp only [isNetlocEnd, Bool.or_eq_true, beq_iff_eq] at he
    rcases he with (h1 | h1) | h1 <;> subst h1 <;> revert h <;> decide

theorem hostChar_ne_colon (c : Char) (h : hostChar c = true) : c ≠ ':' := by
  intro hc
  subst hc
  revert h
  decide

theorem renderQuery_chars (q : List (Chars × Chars)) (hq : WellFormedQuery q) :
    ∀ c ∈ renderQuery q, (queryChar c || c == '=' || c == '&') = true := by
  induction q with
  | nil =>
    intro c hc
    simp [renderQuery, joinChar] at hc
  | cons kv rest ih =>
    intro c hc
    have hkv := hq kv (List.mem_cons_self kv rest)
    have hrest : WellFormedQuery rest :=
      fun x hx => hq x (List.mem_cons_of_mem kv hx)
    cases rest with
    | nil =>
      have hstep : renderQuery [kv] = kv.1 ++ '=' :: kv.2 := rfl
      rw [hstep] at hc
      rcases List.mem_append.mp hc with h | h
      · simp [hkv.2.2.1 c h]
      · rcases List.mem_cons.mp h with h | h
        · subst h; decide
        · simp [hkv.2.2.2 c h]
    | cons kv2 rest2 =>
      have hstep : renderQuery (kv :: kv2 :: rest2) =
          (kv.1 ++ '=' :: kv.2) ++ '&' :: renderQuery (kv2 :: rest2) := rfl
      rw [hstep] at hc
      rcases List.mem_append.mp hc with h | h
      · rcases List.mem_append.mp h with h | h
        · simp [hkv.2.2.1 c h]
        · rcases List.mem_cons.mp h with h | h
          · subst h; decide
          · simp [hkv.2.2.2 c h]
      · rcases List.mem_cons.mp h with h | h
        · subst h; decide
        · exact ih hrest c h

/-- No `#` occurs before the rendered fragment marker. -/
theorem no_hash_before_frag (path : Chars) (q : List (Chars × Chars)) (t : Bool)
    (hpc : ∀ c ∈ path, pathChar c = true) (hq : WellFormedQuery q) :
    '#' ∉ (path ++ (if t then ['/'] else []) ++
      (if q = [] then [] else '?' :: renderQuery q)) := by
  intro hmem
  rcases List.mem_append.mp hmem with h | h
  · rcases List.mem_append.mp h with h | h
    · exact (pathChar_ne _ (hpc _ h)).1 rfl
    · revert h
      split <;> simp
  · revert h
    split
    · simp
    · intro h
      rcases List.mem_cons.mp h with h | h
      · exact absurd h (by decide)
      · have := renderQuery_chars q hq _ h
        simp only [Bool.or_eq_true, beq_iff_eq] at this
        rcases this with (h1 | h1) | h1
        · exact (queryChar_ne _ h1).1 rfl
        · exact absurd h1 (by decide)
        · exact absurd h1 (by decide)

/-- No `?` occurs in the path or trailing slash. -/
theorem no_qmark_in_path (path : Chars) (t : Bool)
    (hpc : ∀ c ∈ path, pathChar c = true) :
    '?' ∉ (path ++ (if t then ['/'] else [])) := by
  intro hmem
  rcases List.mem_append.mp hmem with h | h
  · exact (pathChar_ne _ (hpc _ h)).2.1 rfl
  · revert h
    split <;> simp

/-- `urlparseModel` on a string with a literal `http://` prefix,
reduced to the netloc/path/query/fragment computation on the rest. -/
theorem urlparseModel_http (R : Chars) :
    urlparseModel ("http://".data ++ R) =
      PyUrl.mk "http".data (R.takeWhile (fun c => !isNetlocEnd c))
        (splitPathQueryFrag
          (R.drop (R.takeWhile (fun c => !isNetlocEnd c)).length)).1
        (splitPathQueryFrag
          (R.drop (R.takeWhile (fun c => !isNetlocEnd c)).length)).2.1
        (splitPathQueryFrag
          (R.drop (R.takeWhile (fun c => !isNetlocEnd c)).length)).2.2 :=
  rfl

/-- `urlparseModel` on a string with a literal `https://` prefix. -/
theorem urlparseModel_https (R : Chars) :
    urlparseModel ("https://".data ++ R) =
      PyUrl.mk "https".data (R.takeWhile (fun c => !isNetlocEnd c))
        (splitPathQueryFrag
          (R.drop (R.takeWhile (fun c => !isNetlocEnd c)).length)).1
        (splitPathQueryFrag
          (R.drop (R.takeWhile (fun c => !isNetlocEnd c)).length)).2.1
        (splitPathQueryFrag
          (R.drop (R.takeWhile (fun c => !isNetlocEnd c)).length)).2.2 :=
  rfl

/-- Splitting at `#` after an `#`-free part recovers the fragment. -/
theorem splitFrag_render (A : Chars) (f : Option Chars) (h : '#' ∉ A) :
    splitFirst '#' (A ++ renderFrag f) = (A, f) := by
  cases f with
  | none =>
    show splitFirst '#' (A ++ []) = (A, none)
    rw [List.append_nil]
    exact splitFirst_not_mem '#' A h
  | some fr => exact splitFirst_append '#' A fr h

/-- Splitting at `?` after a `?`-free path recovers the query. -/
theorem splitQ_render (P : Chars) (q : List (Chars × Chars)) (h : '?' ∉ P) :
    splitFirst '?' (P ++ (if q = [] then [] else '?' :: renderQuery q)) =
      (P, if q = [] then none else some (renderQuery q)) := by
  by_cases hqe : q = []
  · rw [if_pos hqe, if_pos hqe, List.append_nil]
    exact splitFirst_not_mem '?' P h
  · rw [if_neg hqe, if_neg hqe]
    exact splitFirst_append '?' P _ h

/-- `splitPathQueryFrag` on a rendered path-query-fragment suffix. -/
theorem splitPathQueryFrag_render (P : Chars) (q : List (Chars × Chars))
    (f : Option Chars)
    (hnohash : '#' ∉ P ++ (if q = [] then [] else '?' :: renderQuery q))
    (hnoq : '?' ∉ P) :
    splitPathQueryFrag
        (P ++ (if q = [] then [] else '?' :: renderQuery q) ++ renderFrag f) =
      (P, if q = [] then [] else renderQuery q, f.getD []) := by
  have hq2 := splitQ_render P q hnoq
  have h1 := splitFrag_render (P ++ (if q = [] then [] else '?' :: renderQuery q))
    f hnohash
  show ((splitFirst '?' (splitFirst '#' _).1).1,
    (splitFirst '?' (splitFirst '#' _).1).2.getD [],
    (splitFirst '#' _).2.getD []) = _
  rw [h1]
  dsimp only
  rw [hq2]
  by_cases hqe : q = [] <;> simp [hqe]

/-- Parsing a rendered URL recovers its parts. -/
theorem urlparse_render (scheme host path : Chars) (q : List (Chars × Chars))
    (f : Option Chars) (t : Bool)
    (hs : scheme = "http".data ∨ scheme = "https".data)
    (hhc : ∀ c ∈ host, hostChar c = true)
    (hpc : ∀ c ∈ path, pathChar c = true)
    (hphead : path.head? = some '/')
    (hq : WellFormedQuery q) :
    urlparseModel (renderUrl scheme host path q f t) =
      ⟨scheme, host, path ++ (if t then ['/'] else []),
       if q = [] then [] else renderQuery q, f.getD []⟩ := by
  obtain ⟨phead, ptail, rfl⟩ : ∃ a l, path = a :: l := by
    cases path with
    | nil => simp at hphead
    | cons a l => exact ⟨a, l, rfl⟩
  have hslash : phead = '/' := by simpa using hphead
  subst hslash
  have hnettl : (host ++
      (('/' :: ptail) ++ (if t then ['/'] else []) ++
        (if q = [] then [] else '?' :: renderQuery q) ++
        renderFrag f)).takeWhile (fun c => !isNetlocEnd c) = host := by
    rw [takeWhile_all_append _ _ _
      (fun x hx => hostChar_not_netlocEnd x (hhc x hx))]
    have h0 : (('/' :: ptail) ++ (if t then ['/'] else []) ++
        (if q = [] then [] else '?' :: renderQuery q) ++
        renderFrag f).takeWhile (fun c => !isNetlocEnd c) = [] := rfl
    rw [h0, List.append_nil]
  have hsplit := splitPathQueryFrag_render
    (('/' :: ptail) ++ (if t then ['/'] else [])) q f
    (no_hash_before_frag _ q t hpc hq) (no_qmark_in_path _ t hpc)
  rcases hs with hs | hs <;> subst hs
  · have hform : renderUrl "http".data host ('/' :: ptail) q f t =
        "http://".data ++ (host ++
          (('/' :: ptail) ++ (if t then ['/'] else []) ++
            (if q = [] then [] else '?' :: renderQuery q) ++
            renderFrag f)) := by
      unfold renderUrl
      simp only [List.append_assoc]
      rfl
    rw [hform, urlparseModel_http, hnettl, List.drop_left, hsplit]
  · have hform : renderUrl "https".data host ('/' :: ptail) q f t =
        "https://".data ++ (host ++
          (('/' :: ptail) ++ (if t then ['/'] else []) ++
            (if q = [] then [] else '?' :: renderQuery q) ++
            renderFrag f)) := by
      unfold renderUrl
      simp only [List.append_assoc]
      rfl
    rw [hform, urlparseModel_https, hnettl, List.drop_left, hsplit]

/-! ### Query round-trip lemmas -/

theorem unquotePlus_id (s : Chars) (h : ∀ c ∈ s, queryChar c = true) :
    unquotePlus s = s := by
  unfold unquotePlus
  have hmap : s.map (fun c => if c == '+' then ' ' else c) = s := by
    induction s with
    | nil => rfl
    | cons a rest ih =>
      have hne : a ≠ '+' := (queryChar_ne a (h a (List.mem_cons_self a rest))).2.2.2.2.2
      simp only [List.map_cons]
      rw [if_neg (by simpa using hne),
        ih (fun c hc => h c (List.mem_cons_of_mem a hc))]
  rw [hmap]
  exact unquoteChars_id s (fun c hc => (queryChar_ne c (h c hc)).2.2.2.2.1)

theorem splitAll_single (c : Char) (s : Chars) (h : ∀ x ∈ s, x ≠ c) :
    splitAllChar c s = [s] := by
  induction s with
  | nil => rfl
  | cons x rest ih =>
    have hx : x ≠ c := h x (List.mem_cons_self x rest)
    conv_lhs => rw [splitAllChar.eq_def]
    dsimp only
    rw [if_neg hx, ih (fun y hy => h y (List.mem_cons_of_mem x hy))]

theorem splitAll_append (c : Char) (a t : Chars) (h : ∀ x ∈ a, x ≠ c) :
    splitAllChar c (a ++ c :: t) = a :: splitAllChar c t := by
  induction a with
  | nil =>
    show splitAllChar c (c :: t) = [] :: splitAllChar c t
    conv_lhs => rw [splitAllChar.eq_def]
    dsimp only
    rw [if_pos rfl]
  | cons x rest ih =>
    have hx : x ≠ c := h x (List.mem_cons_self x rest)
    show splitAllChar c (x :: (rest ++ c :: t)) = (x :: rest) :: splitAllChar c t
    conv_lhs => rw [splitAllChar.eq_def]
    dsimp only
    rw [if_neg hx, ih (fun y hy => h y (List.mem_cons_of_mem x hy))]

theorem splitAll_join (c : Char) (parts : List Chars) (hne : parts ≠ [])
    (h : ∀ f ∈ parts, ∀ x ∈ f, x ≠ c) :
    splitAllChar c (joinChar c parts) = parts := by
  induction parts with
  | nil => exact absurd rfl hne
  | cons p rest ih =>
    cases rest with
    | nil => exact splitAll_single c p (h p (List.mem_cons_self p []))
    | cons p2 r2 =>
      have hstep : joinChar c (p :: p2 :: r2) = p ++ c :: joinChar c (p2 :: r2) :=
        rfl
      rw [hstep, splitAll_append c p _ (h p (List.mem_cons_self p _)),
        ih (by simp) (fun g hg => h g (List.mem_cons_of_mem p hg))]

/-- Every character of a rendered field is free of the `&` separator. -/
theorem renderField_no_amp (kv : Chars × Chars)
    (hk : ∀ c ∈ kv.1, queryChar c = true) (hv : ∀ c ∈ kv.2, queryChar c = true) :
    ∀ x ∈ kv.1 ++ '=' :: kv.2, x ≠ '&' := by
  intro x hx
  rcases List.mem_append.mp hx with h | h
  · exact (queryChar_ne x (hk x h)).2.2.1
  · rcases List.mem_cons.mp h with h | h
    · subst h; decide
    · exact (queryChar_ne x (hv x h)).2.2.1

/-- One rendered field parses back to its pair. -/
theorem parseField_render (kv : Chars × Chars)
    (hk1 : kv.1 ≠ []) (hk : ∀ c ∈ kv.1, queryChar c = true)
    (hv : ∀ c ∈ kv.2, queryChar c = true) :
    (if (kv.1 ++ '=' :: kv.2) = [] then none
     else
      match splitFirst '=' (kv.1 ++ '=' :: kv.2) with
      | (k, some v) => some (unquotePlus k, unquotePlus v)
      | (k, none) => some (unquotePlus k, [])) = some kv := by
  have hfe : kv.1 ++ '=' :: kv.2 ≠ [] := by
    cases hk1e : kv.1 with
    | nil => exact absurd hk1e hk1
    | cons a l => simp [hk1e]
  rw [if_neg hfe,
    splitFirst_append '=' kv.1 kv.2
      (fun hc => (queryChar_ne '=' (hk '=' hc)).2.2.2.1 rfl)]
  rw [show (match (kv.1, some kv.2) with
      | (k, some v) => some (unquotePlus k, unquotePlus v)
      | (k, none) => some (unquotePlus k, [])) =
    some (unquotePlus kv.1, unquotePlus kv.2) from rfl]
  rw [unquotePlus_id kv.1 hk, unquotePlus_id kv.2 hv]

/-- Parsing the rendered fields recovers the pairs. -/
theorem filterMap_parseField (q : List (Chars × Chars)) (hq : WellFormedQuery q) :
    ((q.map (fun kv => kv.1 ++ '=' :: kv.2)).filterMap (fun field =>
      if field = [] then none
      else
        match splitFirst '=' field with
        | (k, some v) => some (unquotePlus k, unquotePlus v)
        | (k, none) => some (unquotePlus k, []))) = q := by
  induction q with
  | nil => rfl
  | cons kv rest ih =>
    have hkv := hq kv (List.mem_cons_self kv rest)
    rw [List.map_cons, List.filterMap_cons,
      parseField_render kv hkv.1 hkv.2.2.1 hkv.2.2.2,
      ih (fun x hx => hq x (List.mem_cons_of_mem kv hx))]

/-- `parse_qsl` inverts the query rendering. -/
theorem parseQsl_render (q : List (Chars × Chars)) (hq : WellFormedQuery q)
    (hne : q ≠ []) : parseQsl (renderQuery q) = q := by
  unfold parseQsl renderQuery
  rw [splitAll_join '&' (q.map (fun kv => kv.1 ++ '=' :: kv.2))
    (by simpa using hne) ?hfields]
  case hfields =>
    intro fld hfld
    obtain ⟨kv, hkv, rfl⟩ := List.mem_map.mp hfld
    exact renderField_no_amp kv (hq kv hkv).2.2.1 (hq kv hkv).2.2.2
  exact filterMap_parseField q hq

/-! ### Grouping and tracking-filter lemmas -/

theorem mapFst_filter (pk : Chars → Bool) (q : List (Chars × Chars)) :
    (q.filter (fun kv => pk kv.1)).map (fun kv => kv.1) =
      (q.map (fun kv => kv.1)).filter pk := by
  induction q with
  | nil => rfl
  | cons kv rest ih =>
    by_cases hk : pk kv.1 = true <;>
      simp [List.filter_cons, hk, ih]

theorem dedupKeysAux_filter (pk : Chars → Bool) (l : List Chars) :
    ∀ seen₁ seen₂ : List Chars,
      (∀ x, pk x = true → seen₁.contains x = seen₂.contains x) →
      (dedupKeysAux seen₁ l).filter pk = dedupKeysAux seen₂ (l.filter pk) := by
  induction l with
  | nil => intro _ _ _; rfl
  | cons k rest ih =>
    intro seen₁ seen₂ hag
    simp only [dedupKeysAux, List.filter_cons]
    by_cases hpk : pk k = true
    · rw [if_pos hpk]
      simp only [dedupKeysAux]
      cases hc : seen₂.contains k
      · have hc1 : seen₁.contains k = false := by rw [hag k hpk, hc]
        rw [if_neg (by rw [hc1]; exact Bool.false_ne_true),
          if_neg Bool.false_ne_true]
        rw [List.filter_cons, if_pos hpk]
        refine congrArg (k :: ·) (ih (k :: seen₁) (k :: seen₂) ?_)
        intro x hx
        simp only [List.contains_cons]
        rw [hag x hx]
      · have hc1 : seen₁.contains k = true := by rw [hag k hpk, hc]
        rw [if_pos hc1, if_pos rfl]
        exact ih seen₁ seen₂ hag
    · rw [if_neg hpk]
      cases hc1 : seen₁.contains k
      · rw [if_neg Bool.false_ne_true]
        rw [List.filter_cons, if_neg hpk]
        refine ih (k :: seen₁) seen₂ ?_
        intro x hx
        have hxk : x ≠ k := by
          intro hcon
          rw [hcon] at hx
          exact hpk hx
        simp only [List.contains_cons]
        rw [hag x hx]
        have hxkb : (x == k) = false := beq_eq_false_iff_ne.mpr hxk
        simp [hxkb]
      · rw [if_pos rfl]
        exact ih seen₁ seen₂ hag

theorem dedupKeysAux_subset (seen l : List Chars) (x : Chars)
    (h : x ∈ dedupKeysAux seen l) : x ∈ l := by
  induction l generalizing seen with
  | nil => simpa [dedupKeysAux] using h
  | cons k rest ih =>
    simp only [dedupKeysAux] at h
    split at h
    · exact List.mem_cons_of_mem k (ih _ h)
    · rcases List.mem_cons.mp h with h | h
      · exact h ▸ List.mem_cons_self k rest
      · exact List.mem_cons_of_mem k (ih _ h)

theorem filter_map_key (pk : Chars → Bool) (g : Chars → List Chars)
    (l : List Chars) :
    ((l.map (fun k => (k, g k))).filter (fun kv => pk kv.1)) =
      (l.filter pk).map (fun k => (k, g k)) := by
  induction l with
  | nil => rfl
  | cons k rest ih =>
    by_cases hk : pk k = true <;>
      simp [List.filter_cons, hk, ih]

theorem groupByKey_filter_key (pk : Chars → Bool) (q : List (Chars × Chars)) :
    (groupByKey q).filter (fun kv => pk kv.1) =
      groupByKey (q.filter (fun kv => pk kv.1)) := by
  unfold groupByKey
  rw [filter_map_key pk (fun k => (q.filter (fun p => p.1 == k)).map (·.2))
    (dedupKeysAux [] (q.map (·.1)))]
  rw [dedupKeysAux_filter pk _ [] [] (fun _ _ => rfl)]
  rw [← mapFst_filter pk q]
  apply List.map_congr_left
  intro k hk
  have hkin : k ∈ (q.filter (fun kv => pk kv.1)).map (fun kv => kv.1) :=
    dedupKeysAux_subset [] _ k hk
  obtain ⟨kv, hkvmem, rfl⟩ := List.mem_map.mp hkin
  have hpk : pk kv.1 = true := (List.mem_filter.mp hkvmem).2
  show (kv.1, (q.filter (fun p => p.1 == kv.1)).map (·.2)) =
    (kv.1, ((q.filter (fun kv => pk kv.1)).filter (fun p => p.1 == kv.1)).map (·.2))
  refine congrArg (fun z => (kv.1, z)) ?_
  rw [List.filter_filter]
  refine congrArg (List.map (fun (x : Chars × Chars) => x.2)) ?_
  apply List.filter_congr
  intro p hp
  cases hpe : (p.1 == kv.1)
  · simp
  · have hpke : p.1 = kv.1 := by simpa using hpe
    simp [hpke, hpk]

theorem normalize_url_eq_normCore (url : Chars) (hne : url ≠ [])
    (hsw : (startsWithChars url "http://".data ||
      startsWithChars url "https://".data ||
      startsWithChars url "//".data) = true)
    (hnl : lowerChars (urlparseModel url).netloc ≠ []) :
    normalize_url url =
      normCore (urlparseModel url).scheme (lowerChars (urlparseModel url).netloc)
        (urlparseModel url).path (urlparseModel url).query := by
  unfold normalize_url normCore defScheme portStrip normPath normPath0 normQTail
  rw [if_neg hne]
  have hb : (!(startsWithChars url "http://".data ||
      startsWithChars url "https://".data ||
      startsWithChars url "//".data)) = false := by rw [hsw]; rfl
  rw [hb]
  simp only [Bool.false_eq_true, if_false]
  rw [if_neg hnl]

theorem canonQuery_congr (q1 q2 : List (Chars × Chars))
    (h : dropTracking q1 = dropTracking q2) : canonQuery q1 = canonQuery q2 := by
  unfold canonQuery
  rw [h]

theorem renderQuery_ne_nil (q : List (Chars × Chars)) (hne : q ≠ []) :
    renderQuery q ≠ [] := by
  cases q with
  | nil => exact absurd rfl hne
  | cons kv rest =>
    cases rest with
    | nil =>
      show kv.1 ++ '=' :: kv.2 ≠ []
      intro h
      simpa using congrArg List.length h
    | cons kv2 r2 =>
      show (kv.1 ++ '=' :: kv.2) ++
        '&' :: joinChar '&' ((kv2 :: r2).map (fun p => p.1 ++ '=' :: p.2)) ≠ []
      intro h
      simpa using congrArg List.length h

theorem normalizeQueryParams_canon (q : List (Chars × Chars)) (netloc : Chars)
    (hq : WellFormedQuery q) (hne : q ≠ [])
    (hsens : PARAM_SENSITIVE_DOMAINS.any (fun d => containsSub netloc d) = false) :
    normalizeQueryParams (renderQuery q) netloc none = canonQuery q := by
  simp only [normalizeQueryParams, canonQuery]
  rw [parseQsl_render q hq hne, hsens]
  have hpt : ∀ kv ∈ groupByKey q,
      (if !false && EXCLUDED_PARAMS.contains (lowerChars kv.1) then
        truthyListOpt (none : Option (List Chars)) &&
          ((none : Option (List Chars)).getD []).contains kv.1
      else true) = !(EXCLUDED_PARAMS.contains (lowerChars kv.1)) := by
    intro kv _
    cases hex : EXCLUDED_PARAMS.contains (lowerChars kv.1) <;>
      simp [truthyListOpt]
  have hfil : ((groupByKey q).filter (fun kv =>
      if !false && EXCLUDED_PARAMS.contains (lowerChars kv.1) then
        truthyListOpt (none : Option (List Chars)) &&
          ((none : Option (List Chars)).getD []).contains kv.1
      else true)) = groupByKey (dropTracking q) := by
    rw [List.filter_congr hpt,
      groupByKey_filter_key (fun x => !(EXCLUDED_PARAMS.contains (lowerChars x))) q]
    rfl
  rw [hfil]

theorem normPath0_wf (path : Chars) (hp : WellFormedPath path) (t : Bool) :
    normPath0 (path ++ (if t then ['/'] else [])) =
      path ++ (if t then ['/'] else []) := by
  obtain ⟨hhead, hpc, hnds, hlast⟩ := hp
  have hne : path ++ (if t then ['/'] else []) ≠ [] := by
    cases path with
    | nil => simp at hhead
    | cons a l => simp
  have hchars : ∀ c ∈ path ++ (if t then ['/'] else []), pathChar c = true := by
    intro c hc
    rcases List.mem_append.mp hc with h | h
    · exact hpc c h
    · cases t with
      | true =>
        have : c = '/' := by simpa using h
        subst this
        decide
      | false => simp at h
  have hnds' : NoDupSlash (path ++ (if t then ['/'] else [])) := by
    cases t with
    | false => simpa using hnds
    | true =>
      simp only [eq_self_iff_true, if_true]
      refine List.Chain'.append hnds (by simp) ?_
      intro x hx y hy
      have hy' : '/' = y := by simpa using hy
      subst hy'
      intro hcon
      apply hlast
      rw [Option.mem_def.mp hx, hcon.1]
  unfold normPath0
  rw [if_neg hne, collapseSlashes_id _ hnds',
    unquoteChars_id _ (fun c hc => (pathChar_ne c (hchars c hc)).2.2),
    quoteChars_id pathSafe _ (fun c hc => hchars c hc)]

theorem normPath_wf (path : Chars) (hp : WellFormedPath path) (t : Bool) :
    normPath (path ++ (if t then ['/'] else [])) = path := by
  have h0 := normPath0_wf path hp t
  obtain ⟨hhead, hpc, hnds, hlast⟩ := hp
  unfold normPath
  rw [h0]
  cases path with
  | nil => exact absurd hhead (by simp)
  | cons a l =>
  have ha : a = '/' := by simpa using hhead
  subst ha
  cases t with
  | false =>
    simp only [Bool.false_eq_true, if_false, List.append_nil]
    have hb : (('/' :: l).getLast? == some '/') = false :=
      beq_eq_false_iff_ne.mpr hlast
    rw [hb, Bool.and_false, if_neg Bool.false_ne_true]
  | true =>
    simp only [eq_self_iff_true, if_true]
    have h1 : (('/' :: l) ++ ['/']).getLast? = some '/' := List.getLast?_concat _
    have h2 : ('/' :: l) ++ ['/'] ≠ "/".data := by
      intro hcon
      have hlen : l.length + 2 = 1 := by simpa using congrArg List.length hcon
      omega
    rw [if_pos (by
      rw [Bool.and_eq_true]
      exact ⟨decide_eq_true h2, by rw [h1]; rfl⟩)]
    exact List.dropLast_concat

/-- `normCore` of the rendered parts evaluates to the canonical form. -/
theorem normCore_eq_canon (scheme host path : Chars) (q : List (Chars × Chars))
    (t : Bool)
    (hs : scheme = "http".data ∨ scheme = "https".data)
    (hh : WellFormedHost host)
    (hsens : PARAM_SENSITIVE_DOMAINS.any
      (fun d => containsSub (lowerChars host) d) = false)
    (hp : WellFormedPath path) (hq : WellFormedQuery q) :
    normCore scheme (lowerChars host) (path ++ (if t then ['/'] else []))
      (if q = [] then [] else renderQuery q) =
      scheme ++ "://".data ++ lowerChars host ++ path ++
        (if canonQuery q ≠ [] then '?' :: canonQuery q else []) := by
  have hds : defScheme scheme = scheme := by
    unfold defScheme
    rcases hs with h | h <;> subst h <;> rw [if_neg (by decide)]
  have hnc : ∀ c ∈ lowerChars host, c ≠ ':' :=
    fun c hc => hostChar_ne_colon c (hh.2.2 c hc)
  have h80 : containsSub (lowerChars host) ":80".data = false :=
    containsSub_false_of_not_mem _ ':' ['8', '0'] hnc
  have h443 : containsSub (lowerChars host) ":443".data = false :=
    containsSub_false_of_not_mem _ ':' ['4', '4', '3'] hnc
  have hps : portStrip (defScheme scheme) (lowerChars host) = lowerChars host := by
    unfold portStrip
    rw [h80, h443]
    simp only [Bool.false_and, Bool.false_eq_true, if_false]
  have hpath := normPath_wf path hp t
  have hqt : normQTail (if q = [] then [] else renderQuery q) (lowerChars host) =
      canonQuery q := by
    by_cases hqe : q = []
    · subst hqe
      rfl
    · unfold normQTail
      rw [if_neg hqe, if_pos (renderQuery_ne_nil q hqe)]
      exact normalizeQueryParams_canon q (lowerChars host) hq hqe hsens
  unfold normCore
  rw [hps, hds, hpath, hqt]

set_option maxRecDepth 8000 in
/-- C2.  For all URLs `u1, u2` that differ only in tracking parameters,
fragment, trailing slash (on a non-root path) or host case — with both
hosts off the parameter-sensitive list — and any selector/context,
`generate_cache_key` agrees on `u1` and `u2`.  The hosts' agreement up
to case is `lowerChars host1 = lowerChars host2`, and "differ only in
tracking parameters" is agreement of the queries after dropping the
`EXCLUDED_PARAMS` keys.  (The spec's claim without the param-sensitive
restriction is refuted by `claim_C2_counterexample`.) -/
theorem claim_C2 (scheme host1 host2 path : Chars)
    (q1 q2 : List (Chars × Chars)) (f1 f2 : Option Chars) (t1 t2 : Bool)
    (sel ctx : Option Chars)
    (hs : scheme = "http".data ∨ scheme = "https".data)
    (hh1 : WellFormedHost host1) (hh2 : WellFormedHost host2)
    (hhcase : lowerChars host1 = lowerChars host2)
    (hsens : PARAM_SENSITIVE_DOMAINS.any
      (fun d => containsSub (lowerChars host1) d) = false)
    (hp : WellFormedPath path)
    (hq1 : WellFormedQuery q1) (hq2 : WellFormedQuery q2)
    (htrack : dropTracking q1 = dropTracking q2) :
    generate_cache_key (renderUrl scheme host1 path q1 f1 t1) sel ctx =
      generate_cache_key (renderUrl scheme host2 path q2 f2 t2) sel ctx := by
  have hsens2 : PARAM_SENSITIVE_DOMAINS.any
      (fun d => containsSub (lowerChars host2) d) = false := by
    rw [← hhcase]
    exact hsens
  have hparse1 := urlparse_render scheme host1 path q1 f1 t1 hs hh1.2.1
    hp.2.1 hp.1 hq1
  have hparse2 := urlparse_render scheme host2 path q2 f2 t2 hs hh2.2.1
    hp.2.1 hp.1 hq2
  have hne1 : renderUrl scheme host1 path q1 f1 t1 ≠ [] := by
    rcases hs with h | h <;> subst h <;> exact List.cons_ne_nil _ _
  have hne2 : renderUrl scheme host2 path q2 f2 t2 ≠ [] := by
    rcases hs with h | h <;> subst h <;> exact List.cons_ne_nil _ _
  have hsw1 : (startsWithChars (renderUrl scheme host1 path q1 f1 t1)
      "http://".data ||
      startsWithChars (renderUrl scheme host1 path q1 f1 t1) "https://".data ||
      startsWithChars (renderUrl scheme host1 path q1 f1 t1) "//".data)
      = true := by
    rcases hs with h | h <;> subst h
    · have hsw : startsWithChars (renderUrl "http".data host1 path q1 f1 t1)
          "http://".data = true := by
        have hform : renderUrl "http".data host1 path q1 f1 t1 =
            "http://".data ++ (host1 ++ (path ++ (if t1 then ['/'] else []) ++
              (if q1 = [] then [] else '?' :: renderQuery q1) ++
              renderFrag f1)) := by
          unfold renderUrl
          simp only [List.append_assoc]
          rfl
        rw [hform]
        exact isPrefixChars_append_self _ _
      simp [hsw]
    · have hsw : startsWithChars (renderUrl "https".data host1 path q1 f1 t1)
          "https://".data = true := by
        have hform : renderUrl "https".data host1 path q1 f1 t1 =
            "https://".data ++ (host1 ++ (path ++ (if t1 then ['/'] else []) ++
              (if q1 = [] then [] else '?' :: renderQuery q1) ++
              renderFrag f1)) := by
          unfold renderUrl
          simp only [List.append_assoc]
          rfl
        rw [hform]
        exact isPrefixChars_append_self _ _
      simp [hsw]
  have hsw2 : (startsWithChars (renderUrl scheme host2 path q2 f2 t2)
      "http://".data ||
      startsWithChars (renderUrl scheme host2 path q2 f2 t2) "https://".data ||
      startsWithChars (renderUrl scheme host2 path q2 f2 t2) "//".data)
      = true := by
    rcases hs with h | h <;> subst h
    · have hsw : startsWithChars (renderUrl "http".data host2 path q2 f2 t2)
          "http://".data = true := by
        have hform : renderUrl "http".data host2 path q2 f2 t2 =
            "http://".data ++ (host2 ++ (path ++ (if t2 then ['/'] else []) ++
              (if q2 = [] then [] else '?' :: renderQuery q2) ++
              renderFrag f2)) := by
          unfold renderUrl
          simp only [List.append_assoc]
          rfl
        rw [hform]
        exact isPrefixChars_append_self _ _
      simp [hsw]
    · have hsw : startsWithChars (renderUrl "https".data host2 path q2 f2 t2)
          "https://".data = true := by
        have hform : renderUrl "https".data host2 path q2 f2 t2 =
            "https://".data ++ (host2 ++ (path ++ (if t2 then ['/'] else []) ++
              (if q2 = [] then [] else '?' :: renderQuery q2) ++
              renderFrag f2)) := by
          unfold renderUrl
          simp only [List.append_assoc]
          rfl
        rw [hform]
        exact isPrefixChars_append_self _ _
      simp [hsw]
  have hnl1 : lowerChars
      (urlparseModel (renderUrl scheme host1 path q1 f1 t1)).netloc ≠ [] := by
    rw [hparse1]
    show lowerChars host1 ≠ []
    intro hcon
    exact hh1.1 (List.map_eq_nil.mp hcon)
  have hnl2 : lowerChars
      (urlparseModel (renderUrl scheme host2 path q2 f2 t2)).netloc ≠ [] := by
    rw [hparse2]
    show lowerChars host2 ≠ []
    intro hcon
    exact hh2.1 (List.map_eq_nil.mp hcon)
  have hu1 := normalize_url_eq_normCore _ hne1 hsw1 hnl1
  have hu2 := normalize_url_eq_normCore _ hne2 hsw2 hnl2
  rw [hparse1] at hu1
  rw [hparse2] at hu2
  dsimp only at hu1 hu2
  rw [normCore_eq_canon scheme host1 path q1 t1 hs hh1 hsens hp hq1] at hu1
  rw [normCore_eq_canon scheme host2 path q2 t2 hs hh2 hsens2 hp hq2] at hu2
  have hn : normalize_url (renderUrl scheme host1 path q1 f1 t1) =
      normalize_url (renderUrl scheme host2 path q2 f2 t2) := by
    rw [hu1, hu2, hhcase, canonQuery_congr q1 q2 htrack]
  unfold generate_cache_key
  rw [hn]

set_option maxRecDepth 100000 in
/-- C2, counterexample to the unrestricted claim: on a host of the
parameter-sensitive list (`youtube.com`) the tracking parameter
`fbclid` is retained, so two URLs that differ only in it get different
cache keys. -/
theorem claim_C2_counterexample :
    generate_cache_key "https://www.youtube.com/watch?v=abc&fbclid=x".data ≠
      generate_cache_key "https://www.youtube.com/watch?v=abc".data := by
  decide

set_option maxRecDepth 8000 in
/-- Witness for C2 at concrete inputs: the two rendered URLs differ in
host case, a `utm`-family tracking parameter, the fragment and the
trailing slash, and the claim applies. -/
theorem claim_C2_witness :
    generate_cache_key (renderUrl "https".data "EXample.com".data "/a".data
        [("utm_source".data, "x1".data), ("id".data, "5".data)]
        (some "frag".data) true) none none =
      generate_cache_key (renderUrl "https".data "example.com".data "/a".data
        [("id".data, "5".data)] none false) none none :=
  claim_C2 "https".data "EXample.com".data "example.com".data "/a".data
    [("utm_source".data, "x1".data), ("id".data, "5".data)]
    [("id".data, "5".data)] (some "frag".data) none true false none none
    (Or.inr rfl) (by decide) (by decide) (by decide) (by decide)
    ⟨by decide, by decide,
      List.chain'_cons.mpr ⟨by decide, List.Chain.nil⟩, by decide⟩
    (by decide) (by decide) (by decide)

end Pebkac

/-- Sanity check: normalization on the spec's seed URL. -/
theorem Pebkac.normalize_url_seed :
    Pebkac.normalize_url "https://Example.com:443/Foo/?utm_source=x&b=2&a=1".data =
      "https://example.com/Foo?a=1&b=2".data := by
  decide

/-- Sanity check of the SHA-256 model against the FIPS 180-2 test vector
for `"abc"`. -/
theorem Pebkac.sha256hex_abc :
    Pebkac.sha256hex (Pebkac.encodeAscii "abc".data) =
      "ba7816bf8f01cfea414140de5dae2223b00361a396177a9cb410ff61f20015ad".data := by
  decide
